import Mathlib

/-
Verification of the gitcfg configuration snapshot builder: a shallow embedding
of src/gitcfg/core/{models,parser,categories}.py.

Modelling conventions:
- Python dicts are insertion-ordered association lists; dict assignment is an
  in-place update keeping the key's position (upsertA), dict.setdefault(k, []).append
  is setdefaultAppend.
- Python str is Lean String; helpers named py* implement the CPython semantics of
  the string methods the source uses (strip, lower, splitlines, split(None, 2), ...)
  over the underlying character list.  Unicode-only corner cases the source never
  meets (exotic whitespace classes, multi-byte percent escapes, Unicode-specific
  lowercase mappings) are not modelled; ASCII semantics are.
- Filesystem and platform state (Path.exists, os.access, os.name, the home
  directory, the working directory) is abstracted into an explicit Env record;
  the POSIX branch is modelled, the os.name == "nt" drive-letter fixup is not.
- pydantic validators run at construction time, so each validated model X is
  built through a mkX function returning Except; model_copy(update=...) does not
  re-run validators and is modelled by a plain record update.
- The generated_at timestamp of ConfigSnapshot (datetime.utcnow) is impure and
  irrelevant to every claim; it is omitted from the model.
-/

namespace Gitcfg

/-! ## Python string primitives -/

/-- Whitespace characters recognised by str.strip() / str.split(None). -/
def pyIsSpace (c : Char) : Bool :=
  c == ' ' || c == '\t' || c == '\n' || c == '\r' || c == '\x0b' || c == '\x0c'

def pyStripL (l : List Char) : List Char :=
  ((l.dropWhile pyIsSpace).reverse.dropWhile pyIsSpace).reverse

/-- Python str.strip(). -/
def pyStrip (s : String) : String := ⟨pyStripL s.data⟩

def pyLowerChar (c : Char) : Char :=
  if 65 ≤ c.toNat && c.toNat ≤ 90 then Char.ofNat (c.toNat + 32) else c

/-- Python str.lower() (ASCII range). -/
def pyLower (s : String) : String := ⟨s.data.map pyLowerChar⟩

def pySplitLinesAux : List Char → List Char → List (List Char)
  | [], [] => []
  | [], cur => [cur.reverse]
  | '\r' :: '\n' :: rest, cur => cur.reverse :: pySplitLinesAux rest []
  | '\r' :: rest, cur => cur.reverse :: pySplitLinesAux rest []
  | '\n' :: rest, cur => cur.reverse :: pySplitLinesAux rest []
  | c :: rest, cur => pySplitLinesAux rest (c :: cur)

/-- Python str.splitlines() for the line boundaries git output can contain. -/
def pySplitLines (s : String) : List String :=
  (pySplitLinesAux s.data []).map String.mk

def notSpace (c : Char) : Bool := !pyIsSpace c

/-- Python str.split(None, 2) on the character list: skip whitespace runs, peel
off at most two tokens, and return the remainder verbatim as the third part. -/
def pySplitNone2L (l : List Char) : List (List Char) :=
  let l1 := l.dropWhile pyIsSpace
  if l1.isEmpty then []
  else
    let t1 := l1.takeWhile notSpace
    let r1 := l1.dropWhile notSpace
    let l2 := r1.dropWhile pyIsSpace
    if l2.isEmpty then [t1]
    else
      let t2 := l2.takeWhile notSpace
      let r2 := l2.dropWhile notSpace
      let l3 := r2.dropWhile pyIsSpace
      if l3.isEmpty then [t1, t2] else [t1, t2, l3]

/-- Python line.split(None, 2). -/
def pySplitNone2 (s : String) : List String :=
  (pySplitNone2L s.data).map String.mk

def isPrefixL : List Char → List Char → Bool
  | [], _ => true
  | _ :: _, [] => false
  | p :: ps, c :: cs => p == c && isPrefixL ps cs

/-- Python str.startswith(pre). -/
def pyStartsWith (s pre : String) : Bool := isPrefixL pre.data s.data

/-- Python str.strip(ch) for a single character argument. -/
def pyStripAllChar (bad : Char) (l : List Char) : List Char :=
  ((l.dropWhile (· == bad)).reverse.dropWhile (· == bad)).reverse

def pyHexVal (c : Char) : Option Nat :=
  if '0' ≤ c && c ≤ '9' then some (c.toNat - 48)
  else if 'a' ≤ c && c ≤ 'f' then some (c.toNat - 87)
  else if 'A' ≤ c && c ≤ 'F' then some (c.toNat - 55)
  else none

/-- Python urllib.parse.unquote: percent-decoding, leaving malformed escapes
untouched (single-byte escapes; multi-byte UTF-8 sequences are not modelled). -/
def pyUnquoteL : List Char → List Char
  | [] => []
  | '%' :: a :: b :: rest =>
    match pyHexVal a, pyHexVal b with
    | some x, some y => Char.ofNat (16 * x + y) :: pyUnquoteL rest
    | _, _ => '%' :: pyUnquoteL (a :: b :: rest)
  | c :: rest => c :: pyUnquoteL rest

/-- Python value.rstrip(newline). -/
def pyRstripNlL (l : List Char) : List Char :=
  (l.reverse.dropWhile (· == '\n')).reverse

/-! ## Ordered dictionaries as association lists -/

/-- Lookup in an insertion-ordered association list (Python dict read). -/
def alookup [DecidableEq κ] : List (κ × β) → κ → Option β
  | [], _ => none
  | (k, v) :: rest, key => if key = k then some v else alookup rest key

/-- Python dict assignment: replace in place when the key exists (keeping its
position), append otherwise. -/
def upsertA [DecidableEq κ] : List (κ × β) → κ → β → List (κ × β)
  | [], k, v => [(k, v)]
  | (k0, v0) :: rest, k, v =>
    if k0 = k then (k0, v) :: rest else (k0, v0) :: upsertA rest k v

/-- Python dict.setdefault(k, []).append(v). -/
def setdefaultAppend [DecidableEq κ] : List (κ × List β) → κ → β → List (κ × List β)
  | [], k, v => [(k, [v])]
  | (k0, vs) :: rest, k, v =>
    if k0 = k then (k0, vs ++ [v]) :: rest else (k0, vs) :: setdefaultAppend rest k v

/-- Stable insertion: the new element goes after every element it is not
strictly below, so repeated insertion from the left mirrors Python's stable sorted(). -/
def orderedInsertStable (lt : α → α → Bool) (x : α) : List α → List α
  | [] => [x]
  | y :: ys => if lt x y then x :: y :: ys else y :: orderedInsertStable lt x ys

/-- Python sorted(l, key=...) expressed through a strict comparison on keys. -/
def pyStableSort (lt : α → α → Bool) (l : List α) : List α :=
  l.foldl (fun acc x => orderedInsertStable lt x acc) []

/-! ## Data model (core/models.py) -/

/-- Errors: gitcfg's ConfigurationError and ValidationError, plus the
pydantic.ValidationError a failed field/model validator raises. -/
inductive GitcfgError where
  | configurationError (msg : String)
  | validationError (msg : String)
  | pydanticError (msg : String)
deriving DecidableEq, Repr

/-- ConfigScope enumeration (members SYSTEM / GLOBAL / LOCAL). -/
inductive ConfigScope where
  | SYSTEM
  | GLOBAL
  | LOCAL
deriving DecidableEq, Repr

def ConfigScope.value : ConfigScope → String
  | .SYSTEM => "system"
  | .GLOBAL => "global"
  | .LOCAL => "local"

/-- The _SCOPE_PRECEDENCE table. -/
def ConfigScope.precedence : ConfigScope → Nat
  | .SYSTEM => 0
  | .GLOBAL => 1
  | .LOCAL => 2

/-- ConfigScope.from_git: strip, lowercase, match a member value or raise
gitcfg's ValidationError. -/
def ConfigScope.fromGit (value : String) : Except GitcfgError ConfigScope :=
  let normalized := pyLower (pyStrip value)
  if normalized = "system" then .ok .SYSTEM
  else if normalized = "global" then .ok .GLOBAL
  else if normalized = "local" then .ok .LOCAL
  else .error (.validationError ("Unsupported Git scope '" ++ value ++ "'."))

/-- The _KEY_PATTERN regex [A-Za-z0-9.-], one character. -/
def keyPatternChar (c : Char) : Bool :=
  ('A' ≤ c && c ≤ 'Z') || ('a' ≤ c && c ≤ 'z') || ('0' ≤ c && c ≤ '9') || c == '.' || c == '-'

/-- _KEY_PATTERN.fullmatch: at least one character, all from [A-Za-z0-9.-]. -/
def keyPatternMatch (s : String) : Bool :=
  !s.data.isEmpty && s.data.all keyPatternChar

/-- The platform/filesystem facts the source reads (Path.exists, os.access,
expanduser's home, resolve's working directory), made explicit. -/
structure Env where
  home : String
  cwd : String
  fileExists : String → Bool
  fileWritable : String → Bool

def isAbsolutePath (p : String) : Bool := pyStartsWith p "/"

/-- Path.expanduser (the bare-user form; named-user expansion is not modelled). -/
def expanduser (env : Env) (p : String) : String :=
  if p = "~" then env.home
  else if pyStartsWith p "~/" then env.home ++ String.mk (p.data.drop 1)
  else p

def splitOnCharAux (sep : Char) : List Char → List Char → List (List Char)
  | [], cur => [cur.reverse]
  | c :: rest, cur =>
    if c == sep then cur.reverse :: splitOnCharAux sep rest []
    else splitOnCharAux sep rest (c :: cur)

def normalizeParts : List String → List String → List String
  | [], stack => stack.reverse
  | p :: rest, stack =>
    if p = "" || p = "." then normalizeParts rest stack
    else if p = ".." then normalizeParts rest stack.tail
    else normalizeParts rest (p :: stack)

def joinSlash : List String → String
  | [] => ""
  | [a] => a
  | a :: rest => a ++ "/" ++ joinSlash rest

/-- Path.resolve(strict=False): prepend the working directory when relative and
normalise the dot segments (symlink resolution has no pure counterpart). -/
def resolveNonStrict (env : Env) (p : String) : String :=
  let full := if isAbsolutePath p then p else env.cwd ++ "/" ++ p
  let parts := (splitOnCharAux '/' full.data []).map String.mk
  "/" ++ joinSlash (normalizeParts parts [])

/-- ConfigEntry model fields. -/
structure ConfigEntry where
  key : String
  value : String
  scope : ConfigScope
  origin : String
  category_id : String
  is_active : Bool
  overridden_by : List ConfigScope
  annotations : List String
deriving DecidableEq, Repr

def listHasDup [DecidableEq α] : List α → Bool
  | [] => false
  | a :: rest => if a ∈ rest then true else listHasDup rest

/-- ConfigEntry construction with its pydantic validators: the key regex, the
origin-path resolution, the overridden_by duplicate check, and the
override-ordering model validator. -/
def mkConfigEntry (env : Env) (key value : String) (scope : ConfigScope) (origin : String)
    (category_id : String) (is_active : Bool) (overridden_by : List ConfigScope)
    (annotations : List String) : Except GitcfgError ConfigEntry :=
  if !keyPatternMatch key then
    .error (.pydanticError "Invalid git configuration key format.")
  else
    let origin' := if isAbsolutePath origin then origin else resolveNonStrict env origin
    if listHasDup overridden_by then
      .error (.pydanticError "Duplicate scope detected in overridden_by list.")
    else if overridden_by.any (fun s => decide (s.precedence ≤ scope.precedence)) then
      .error (.pydanticError "Overrides must originate from higher-precedence scopes than the entry scope.")
    else
      .ok ⟨key, value, scope, origin', category_id, is_active, overridden_by, annotations⟩

/-- ScopeMetadata model fields. -/
structure ScopeMetadata where
  scope : ConfigScope
  path : String
  is_writable : Bool
deriving DecidableEq, Repr

/-- ScopeMetadata construction with the _ensure_path_exists validator. -/
def mkScopeMetadata (env : Env) (scope : ConfigScope) (path : String) (is_writable : Bool) :
    Except GitcfgError ScopeMetadata :=
  let expanded := expanduser env path
  let resolved := if isAbsolutePath expanded then expanded else resolveNonStrict env expanded
  if !isAbsolutePath resolved then
    .error (.pydanticError "Config path must be absolute.")
  else if !env.fileExists resolved then
    .error (.pydanticError ("Config path does not exist: " ++ resolved))
  else
    .ok ⟨scope, resolved, is_writable⟩

/-- EffectiveConfig model fields. -/
structure EffectiveConfig where
  key : String
  active_entry : ConfigEntry
  all_entries : List ConfigEntry
deriving DecidableEq, Repr

/-- Comparison for sorted(..., key=lambda entry: entry.scope.precedence). -/
def entryPrecLt (a b : ConfigEntry) : Bool :=
  decide (a.scope.precedence < b.scope.precedence)

/-- EffectiveConfig construction with its validators: the key regex, the
membership check, and the _ensure_consistency sort of all_entries. -/
def mkEffectiveConfig (key : String) (active_entry : ConfigEntry)
    (all_entries : List ConfigEntry) : Except GitcfgError EffectiveConfig :=
  if !keyPatternMatch key then
    .error (.pydanticError "Invalid git configuration key format.")
  else if active_entry ∈ all_entries then
    .ok ⟨key, active_entry, pyStableSort entryPrecLt all_entries⟩
  else
    .error (.pydanticError "Active entry must be present in all_entries list.")

/-- ConfigSnapshot model fields (generated_at omitted, see the header comment). -/
structure ConfigSnapshot where
  scopes : List (ConfigScope × ScopeMetadata)
  entries : List ConfigEntry
  effective_map : List (String × EffectiveConfig)
deriving DecidableEq, Repr

/-- The duplicate-detection walk of ConfigSnapshot._validate_snapshot. -/
def findDuplicatePair : List ConfigEntry → List (String × ConfigScope) →
    Option (String × ConfigScope)
  | [], _ => none
  | e :: rest, seen =>
    if (e.key, e.scope) ∈ seen then some (e.key, e.scope)
    else findDuplicatePair rest ((e.key, e.scope) :: seen)

/-- ConfigSnapshot construction with _validate_snapshot: reject duplicate
(key, scope) pairs, then reject entry keys missing from effective_map. -/
def mkConfigSnapshot (scopes : List (ConfigScope × ScopeMetadata))
    (entries : List ConfigEntry) (effective_map : List (String × EffectiveConfig)) :
    Except GitcfgError ConfigSnapshot :=
  match findDuplicatePair entries [] with
  | some ks =>
    .error (.pydanticError ("Duplicate configuration entry detected for " ++ ks.1 ++
      " at scope " ++ ks.2.value ++ "."))
  | none =>
    let missing := (entries.map (·.key)).filter (fun k => (alookup effective_map k).isNone)
    if !missing.isEmpty then
      .error (.pydanticError "Effective map missing keys.")
    else
      .ok ⟨scopes, entries, effective_map⟩

/-! ## Category metadata and resolver (core/categories.py) -/

/-- ConfigCategory model fields. -/
structure ConfigCategory where
  id : String
  name : String
  description : String
  keys : List String
  related_categories : List String
deriving DecidableEq, Repr

def UNCATEGORIZED_CATEGORY : ConfigCategory :=
  { id := "uncategorized"
    name := "Uncategorized"
    description := "Configuration keys without curated metadata. These should be reviewed to decide whether they warrant their own category or belong to an existing bundle."
    keys := []
    related_categories := [] }

/-- The _DEFAULT_CATEGORIES table, in declaration order. -/
def defaultCategories : List ConfigCategory :=
  [ { id := "user-identity"
      name := "User Identity"
      description := "Identity details applied to commits and tags."
      keys := ["user.name", "user.email", "user.signingkey"]
      related_categories := ["credential-management"] }
  , { id := "credential-management"
      name := "Credential Management"
      description := "Authentication helpers and credential caching controls."
      keys := ["credential.helper", "credential.useHttpPath"]
      related_categories := ["user-identity"] }
  , { id := "commit-signing"
      name := "Commit Signing"
      description := "Enable and configure signing of commits."
      keys := ["user.signingkey", "commit.gpgsign", "gpg.format"]
      related_categories := ["user-identity"] }
  , { id := "core-behavior"
      name := "Core Behavior"
      description := "Global Git behaviors that influence repository interactions."
      keys := ["core.*", "init.defaultbranch"]
      related_categories := [] }
  , { id := "remote-settings"
      name := "Remote Settings"
      description := "Remote and branch settings controlling fetch/push flows."
      keys := ["remote.*", "branch.*"]
      related_categories := [] }
  , { id := "custom-capabilities"
      name := "Custom Capabilities"
      description := "Custom capabilities available to the usre."
      keys := ["alias.*"]
      related_categories := [] } ]

/-- The _CATEGORY_INDEX dict comprehension. -/
def categoryIndex : List (String × ConfigCategory) :=
  defaultCategories.foldl (fun acc c => upsertA acc c.id c) []

def hasWildcard (p : String) : Bool := p.data.any (fun c => c == '*' || c == '?')

/-- The _EXPLICIT_KEY_INDEX built by the module-level loop (later categories
overwrite earlier ones on a shared exact key, as dict assignment does). -/
def explicitKeyIndex : List (String × String) :=
  defaultCategories.foldl
    (fun acc cat => cat.keys.foldl
      (fun acc2 kp => if hasWildcard kp then acc2 else upsertA acc2 kp cat.id) acc) []

/-- The _WILDCARD_PATTERNS list built by the same loop, in declaration order. -/
def wildcardPatterns : List (String × String) :=
  defaultCategories.foldl
    (fun acc cat => cat.keys.foldl
      (fun acc2 kp => if hasWildcard kp then acc2 ++ [(kp, cat.id)] else acc2) acc) []

/-- Glob matching with explicit fuel to make the recursion structural; the fuel
passed by fnmatchcase below always suffices.  fnmatch's bracket classes are not
modelled: no pattern in the table uses them. -/
def globMatchFuel : Nat → List Char → List Char → Bool
  | 0, _, _ => false
  | _ + 1, [], [] => true
  | _ + 1, [], _ :: _ => false
  | n + 1, '*' :: ps, s =>
    globMatchFuel n ps s ||
      (match s with
       | [] => false
       | _ :: ss => globMatchFuel n ('*' :: ps) ss)
  | n + 1, '?' :: ps, _ :: ss => globMatchFuel n ps ss
  | _ + 1, '?' :: _, [] => false
  | n + 1, p :: ps, c :: ss => p == c && globMatchFuel n ps ss
  | _ + 1, _ :: _, [] => false

/-- Python fnmatch.fnmatchcase(name, pattern) for star/question patterns. -/
def fnmatchcase (nm pat : String) : Bool :=
  globMatchFuel (pat.data.length + nm.data.length + 1) pat.data nm.data

/-- The first-match-wins walk over _WILDCARD_PATTERNS. -/
def findFirstPattern (key : String) : List (String × String) → Option String
  | [] => none
  | (pat, cid) :: rest => if fnmatchcase key pat then some cid else findFirstPattern key rest

/-- resolve_category_id: exact table, then ordered glob patterns, then the
uncategorized sentinel; blank keys short-circuit to the sentinel. -/
def resolveCategoryId (config_key : String) : String :=
  let normalized_key := pyStrip config_key
  if normalized_key = "" then UNCATEGORIZED_CATEGORY.id
  else
    match alookup explicitKeyIndex normalized_key with
    | some cid => cid
    | none =>
      match findFirstPattern normalized_key wildcardPatterns with
      | some cid => cid
      | none => UNCATEGORIZED_CATEGORY.id

/-- _resolve_entry_category: trust a known or sentinel category id, otherwise
re-resolve from the entry's key. -/
def resolveEntryCategory (entry : ConfigEntry) : String :=
  if entry.category_id = UNCATEGORIZED_CATEGORY.id || (alookup categoryIndex entry.category_id).isSome
  then entry.category_id
  else resolveCategoryId entry.key

def charLt (a b : Char) : Bool := decide (a.toNat < b.toNat)

def strLtL : List Char → List Char → Bool
  | [], [] => false
  | [], _ :: _ => true
  | _ :: _, [] => false
  | a :: as, b :: bs => charLt a b || (a == b && strLtL as bs)

/-- Python's string comparison: lexicographic on code points. -/
def pyStrLt (a b : String) : Bool := strLtL a.data b.data

/-- Comparison for _entry_sort_key: (entry.key, entry.scope.precedence). -/
def entrySortLt2 (a b : ConfigEntry) : Bool :=
  pyStrLt a.key b.key || (a.key == b.key && decide (a.scope.precedence < b.scope.precedence))

/-- group_entries_by_category: bucket by the resolved category id in first-seen
order, then sort each bucket by (key, scope precedence). -/
def groupEntriesByCategory (entries : List ConfigEntry) : List (String × List ConfigEntry) :=
  let grouped := entries.foldl (fun g e => setdefaultAppend g (resolveEntryCategory e) e) []
  grouped.map (fun kv => (kv.1, pyStableSort entrySortLt2 kv.2))

/-! ## Record parser (core/parser.py) -/

/-- The transient _RawConfigRecord dataclass. -/
structure RawConfigRecord where
  scope : ConfigScope
  origin : String
  key : String
  value : String
  file_origin : Bool
deriving DecidableEq, Repr

/-- _split_line: split(None, 2) must yield exactly three parts. -/
def splitLine (line : String) : Except GitcfgError (String × String × String) :=
  match pySplitNone2 line with
  | [a, b, c] => .ok (a, b, c)
  | _ => .error (.configurationError ("Unexpected git config output format: " ++ line))

/-- _parse_origin.  A token starting with file: is treated as a file URL
(urlparse assigns it scheme "file", so the scheme-mismatch raise is
unreachable; query/fragment splitting never fires on git's origin tokens and
is not modelled), percent-decoded, prefixed with the netloc when present, and
made absolute; other tokens only have surrounding double quotes stripped. -/
def parseOrigin (env : Env) (token : String) : Except GitcfgError (String × Bool) :=
  let cleaned := pyStrip token
  if pyStartsWith cleaned "file:" then
    let rest := String.mk (cleaned.data.drop 5)
    let nlp :=
      if pyStartsWith rest "//" then
        let r := rest.data.drop 2
        (String.mk (r.takeWhile (fun c => !(c == '/'))), String.mk (r.dropWhile (fun c => !(c == '/'))))
      else ("", rest)
    let raw_path := String.mk (pyUnquoteL nlp.2.data)
    let raw_path := if nlp.1 = "" then raw_path else nlp.1 ++ raw_path
    if raw_path = "" then
      .error (.configurationError ("Origin path missing in git output: " ++ token))
    else
      let path := expanduser env raw_path
      let path := if isAbsolutePath path then path else resolveNonStrict env path
      .ok (path, true)
  else
    .ok (String.mk (pyStripAllChar '"' cleaned.data), false)

/-- _parse_key_value: split on the first equals sign (absence means empty
value), strip the key and reject it when blank, rstrip newlines off the value. -/
def parseKeyValue (payload : String) : Except GitcfgError (String × String) :=
  let kl := payload.data.takeWhile (fun c => !(c == '='))
  let rest := payload.data.dropWhile (fun c => !(c == '='))
  let kv : List Char × List Char :=
    match rest with
    | [] => (payload.data, [])
    | _ :: v => (kl, v)
  let key := pyStrip (String.mk kv.1)
  if key = "" then
    .error (.configurationError "Encountered git configuration entry with empty key.")
  else
    .ok (key, String.mk (pyRstripNlL kv.2))

/-- The body of the _parse_records loop for one (already stripped, non-blank)
line: split, scope, origin, key/value. -/
def parseConfigLine (env : Env) (line : String) : Except GitcfgError RawConfigRecord := do
  let (scope_token, origin_token, payload) ← splitLine line
  let scope ← ConfigScope.fromGit scope_token
  let (origin, file_origin) ← parseOrigin env origin_token
  let (key, value) ← parseKeyValue payload
  .ok { scope := scope, origin := origin, key := key, value := value, file_origin := file_origin }

def parseRecordsAux (env : Env) : List String → Except GitcfgError (List RawConfigRecord)
  | [] => .ok []
  | raw_line :: rest =>
    let line := pyStrip raw_line
    if line = "" then parseRecordsAux env rest
    else do
      let record ← parseConfigLine env line
      let records ← parseRecordsAux env rest
      .ok (record :: records)

/-- _parse_records: splitlines, strip, skip blanks, parse each line in order. -/
def parseRecords (env : Env) (output : String) : Except GitcfgError (List RawConfigRecord) :=
  parseRecordsAux env (pySplitLines output)

/-! ## Snapshot builder (core/parser.py, _build_entries onward) -/

/-- The three dicts threaded through the first loop of _build_entries. -/
structure Phase1State where
  key_scope_map : List ((String × ConfigScope) × RawConfigRecord)
  duplicate_counts : List ((String × ConfigScope) × Nat)
  scope_candidates : List (ConfigScope × List String)
deriving Repr

/-- One iteration of the first _build_entries loop. -/
def phase1Step (st : Phase1State) (record : RawConfigRecord) : Phase1State :=
  let kss := (record.key, record.scope)
  { key_scope_map := upsertA st.key_scope_map kss record
    duplicate_counts := upsertA st.duplicate_counts kss ((alookup st.duplicate_counts kss).getD 0 + 1)
    scope_candidates :=
      if record.file_origin then setdefaultAppend st.scope_candidates record.scope record.origin
      else st.scope_candidates }

def phase1 (records : List RawConfigRecord) : Phase1State :=
  records.foldl phase1Step ⟨[], [], []⟩

/-- The duplicate-collapse annotation text. -/
def duplicateMsg (n : Nat) (scope : ConfigScope) : String :=
  toString n ++ " values defined at " ++ scope.value ++ " scope; using the most recent definition."

def entryAnnotations (duplicate_counts : List ((String × ConfigScope) × Nat))
    (kss : String × ConfigScope) : List String :=
  let duplicate_total := (alookup duplicate_counts kss).getD 0
  if duplicate_total > 1 then [duplicateMsg duplicate_total kss.2] else []

/-- Building the provisional ConfigEntry for one retained (key, scope) record. -/
def mkEntryForItem (env : Env) (duplicate_counts : List ((String × ConfigScope) × Nat))
    (item : (String × ConfigScope) × RawConfigRecord) : Except GitcfgError ConfigEntry :=
  let record := item.2
  mkConfigEntry env record.key record.value record.scope record.origin
    (resolveCategoryId record.key) false [] (entryAnnotations duplicate_counts item.1)

/-- The second _build_entries loop: entries_by_key via setdefault-append over the
retained records, aborting on the first pydantic validation failure. -/
def phase2 (env : Env) (duplicate_counts : List ((String × ConfigScope) × Nat)) :
    List ((String × ConfigScope) × RawConfigRecord) → List (String × List ConfigEntry) →
    Except GitcfgError (List (String × List ConfigEntry))
  | [], acc => .ok acc
  | item :: rest, acc => do
    let entry ← mkEntryForItem env duplicate_counts item
    phase2 env duplicate_counts rest (setdefaultAppend acc item.2.key entry)

/-- The per-key override pass.  In the source, the entry at position index pairs
with ordered[index + 1 :], which is exactly the running tail of this recursion;
model_copy(update=...) bypasses the validators, hence the plain record update. -/
def normalizeGroup : List ConfigEntry → List ConfigEntry
  | [] => []
  | entry :: rest =>
    let higher_scopes := (rest.map (·.scope)).reverse
    (if higher_scopes.isEmpty then
       { entry with overridden_by := higher_scopes, is_active := true }
     else
       { entry with overridden_by := higher_scopes }) :: normalizeGroup rest

/-- Comparison for the final sort key (category_id, key, scope precedence). -/
def entrySortLt3 (a b : ConfigEntry) : Bool :=
  pyStrLt a.category_id b.category_id ||
    (a.category_id == b.category_id &&
      (pyStrLt a.key b.key ||
        (a.key == b.key && decide (a.scope.precedence < b.scope.precedence))))

/-- The scope-metadata loop for one scope: first existing candidate whose
ScopeMetadata construction succeeds, skipping validator failures. -/
def pickScopeMetadata (env : Env) (scope : ConfigScope) : List String → Option ScopeMetadata
  | [] => none
  | candidate :: rest =>
    if env.fileExists candidate then
      match mkScopeMetadata env scope candidate (env.fileWritable candidate) with
      | .ok m => some m
      | .error _ => pickScopeMetadata env scope rest
    else pickScopeMetadata env scope rest

/-- _build_entries. -/
def buildEntries (env : Env) (records : List RawConfigRecord) :
    Except GitcfgError (List ConfigEntry × List (ConfigScope × ScopeMetadata)) := do
  let st := phase1 records
  let entries_by_key ← phase2 env st.duplicate_counts st.key_scope_map []
  let normalized_entries :=
    (entries_by_key.map (fun g => normalizeGroup (pyStableSort entryPrecLt g.2))).flatten
  let entries_sorted := pyStableSort entrySortLt3 normalized_entries
  let metadata := st.scope_candidates.foldl
    (fun md sc =>
      match pickScopeMetadata env sc.1 sc.2 with
      | some m => upsertA md sc.1 m
      | none => md) []
  .ok (entries_sorted, metadata)

/-- The dict-building loop of _build_effective_map. -/
def effFold : List (String × List ConfigEntry) → List (String × EffectiveConfig) →
    Except GitcfgError (List (String × EffectiveConfig))
  | [], acc => .ok acc
  | (key, key_entries) :: rest, acc =>
    match key_entries.find? (·.is_active) with
    | none => .error (.configurationError ("No active entry detected for key '" ++ key ++ "'."))
    | some active_entry => do
      let ec ← mkEffectiveConfig key active_entry key_entries
      effFold rest (upsertA acc key ec)

/-- _build_effective_map: group the final entries by key, then demand an active
entry per key. -/
def buildEffectiveMap (entries : List ConfigEntry) :
    Except GitcfgError (List (String × EffectiveConfig)) :=
  let grouped := entries.foldl (fun g e => setdefaultAppend g e.key e) []
  effFold grouped []

/-- parse_git_config_output. -/
def parseGitConfigOutput (env : Env) (output : String) : Except GitcfgError ConfigSnapshot := do
  let records ← parseRecords env output
  if records.isEmpty then mkConfigSnapshot [] [] []
  else do
    let (entries, scopes) ← buildEntries env records
    let effective_map ← buildEffectiveMap entries
    mkConfigSnapshot scopes entries effective_map

/-! ## Auxiliary definitions used by the verification -/

/-- Boolean success test on Except (kept local to control kernel reduction). -/
def isOkE : Except GitcfgError α → Bool
  | .ok _ => true
  | .error _ => false

/-- A concrete environment for closed evaluations: no file exists, nothing is
writable; the claims under verification do not depend on filesystem state. -/
def sampleEnv : Env :=
  { home := "/root", cwd := "/work", fileExists := fun _ => false, fileWritable := fun _ => false }

/-- The last record carrying the given (key, scope) pair, in input order; this
is the record dict assignment retains in key_scope_map. -/
def lastMatch (ks : String × ConfigScope) : List RawConfigRecord → Option RawConfigRecord
  | [] => none
  | r :: rest =>
    match lastMatch ks rest with
    | some r' => some r'
    | none => if (r.key, r.scope) = ks then some r else none

/-- The ConfigEntry mkEntryForItem produces when the key validator passes. -/
def entryOf (env : Env) (duplicate_counts : List ((String × ConfigScope) × Nat))
    (item : (String × ConfigScope) × RawConfigRecord) : ConfigEntry :=
  { key := item.2.key
    value := item.2.value
    scope := item.2.scope
    origin := if isAbsolutePath item.2.origin then item.2.origin else resolveNonStrict env item.2.origin
    category_id := resolveCategoryId item.2.key
    is_active := false
    overridden_by := []
    annotations := entryAnnotations duplicate_counts item.1 }

/-- The projection of a ConfigEntry that the override pass and the sorts leave
untouched. -/
def projE (e : ConfigEntry) : String × ConfigScope × String × List String :=
  (e.key, e.scope, e.value, e.annotations)

/-! ## Association-list lemmas -/

theorem alookup_cons [DecidableEq κ] (k0 : κ) (v0 : β) (tl : List (κ × β)) (key : κ) :
    alookup ((k0, v0) :: tl) key = if key = k0 then some v0 else alookup tl key := rfl

theorem upsertA_cons [DecidableEq κ] (k0 : κ) (v0 : β) (tl : List (κ × β)) (k : κ) (v : β) :
    upsertA ((k0, v0) :: tl) k v =
      if k0 = k then (k0, v) :: tl else (k0, v0) :: upsertA tl k v := rfl

theorem setdefaultAppend_cons [DecidableEq κ] (k0 : κ) (vs : List β)
    (tl : List (κ × List β)) (k : κ) (v : β) :
    setdefaultAppend ((k0, vs) :: tl) k v =
      if k0 = k then (k0, vs ++ [v]) :: tl else (k0, vs) :: setdefaultAppend tl k v := rfl

theorem alookup_upsert [DecidableEq κ] (l : List (κ × β)) (k : κ) (v : β) (k' : κ) :
    alookup (upsertA l k v) k' = if k' = k then some v else alookup l k' := by
  induction l with
  | nil => simp [upsertA, alookup]
  | cons hd tl ih =>
    obtain ⟨k0, v0⟩ := hd
    by_cases h0 : k0 = k
    · rw [show upsertA ((k0, v0) :: tl) k v = (k0, v) :: tl from by
        rw [upsertA_cons, if_pos h0]]
      simp only [alookup_cons, ← h0]
      by_cases h1 : k' = k0 <;> simp [h1]
    · rw [show upsertA ((k0, v0) :: tl) k v = (k0, v0) :: upsertA tl k v from by
        rw [upsertA_cons, if_neg h0]]
      simp only [alookup_cons, ih]
      by_cases h1 : k' = k0
      · have h2 : ¬ k' = k := fun hh => h0 (h1 ▸ hh)
        simp [h1, h2, h0]
      · simp [h1]

theorem mem_keys_upsert [DecidableEq κ] (l : List (κ × β)) (k : κ) (v : β) (k' : κ) :
    k' ∈ (upsertA l k v).map Prod.fst ↔ k' = k ∨ k' ∈ l.map Prod.fst := by
  induction l with
  | nil => simp [upsertA]
  | cons hd tl ih =>
    obtain ⟨k0, v0⟩ := hd
    by_cases h0 : k0 = k
    · rw [show upsertA ((k0, v0) :: tl) k v = (k0, v) :: tl from by
        rw [upsertA_cons, if_pos h0]]
      simp only [List.map_cons, List.mem_cons, ← h0]
      tauto
    · rw [show upsertA ((k0, v0) :: tl) k v = (k0, v0) :: upsertA tl k v from by
        rw [upsertA_cons, if_neg h0]]
      simp only [List.map_cons, List.mem_cons, ih]
      tauto

theorem nodup_keys_upsert [DecidableEq κ] (l : List (κ × β)) (k : κ) (v : β)
    (h : (l.map Prod.fst).Nodup) : ((upsertA l k v).map Prod.fst).Nodup := by
  induction l with
  | nil => simp [upsertA]
  | cons hd tl ih =>
    obtain ⟨k0, v0⟩ := hd
    simp only [List.map_cons, List.nodup_cons] at h
    by_cases h0 : k0 = k
    · rw [show upsertA ((k0, v0) :: tl) k v = (k0, v) :: tl from by
        rw [upsertA_cons, if_pos h0]]
      simpa using h
    · rw [show upsertA ((k0, v0) :: tl) k v = (k0, v0) :: upsertA tl k v from by
        rw [upsertA_cons, if_neg h0]]
      simp only [List.map_cons, List.nodup_cons]
      refine ⟨fun hmem => ?_, ih h.2⟩
      rcases (mem_keys_upsert tl k v k0).1 hmem with h1 | h1
      · exact h0 h1
      · exact h.1 h1

theorem alookup_isSome_iff_mem_keys [DecidableEq κ] (l : List (κ × β)) (k : κ) :
    (alookup l k).isSome = true ↔ k ∈ l.map Prod.fst := by
  induction l with
  | nil => simp [alookup]
  | cons hd tl ih =>
    obtain ⟨k0, v0⟩ := hd
    by_cases h0 : k = k0
    · simp [alookup_cons, h0]
    · simp [alookup_cons, h0, ih]

theorem mem_of_alookup_eq_some [DecidableEq κ] (l : List (κ × β)) (k : κ) (v : β)
    (h : alookup l k = some v) : (k, v) ∈ l := by
  induction l with
  | nil => simp [alookup] at h
  | cons hd tl ih =>
    obtain ⟨k0, v0⟩ := hd
    by_cases h0 : k = k0
    · rw [alookup_cons, if_pos h0, Option.some.injEq] at h
      rw [h0, ← h]
      exact List.mem_cons_self _ _
    · rw [alookup_cons, if_neg h0] at h
      exact List.mem_cons_of_mem _ (ih h)

theorem alookup_eq_some_of_mem_nodup [DecidableEq κ] (l : List (κ × β))
    (hnd : (l.map Prod.fst).Nodup) (kv : κ × β) (hmem : kv ∈ l) :
    alookup l kv.1 = some kv.2 := by
  induction l with
  | nil => simp at hmem
  | cons hd tl ih =>
    obtain ⟨k0, v0⟩ := hd
    simp only [List.map_cons, List.nodup_cons] at hnd
    rcases List.mem_cons.1 hmem with h | h
    · rw [h]
      simp [alookup_cons]
    · have hne : kv.1 ≠ k0 := by
        intro he
        exact hnd.1 (he ▸ List.mem_map_of_mem Prod.fst h)
      rw [alookup_cons, if_neg hne]
      exact ih hnd.2 h

theorem mem_keys_setdefault [DecidableEq κ] (l : List (κ × List β)) (k : κ) (v : β) (k' : κ) :
    k' ∈ (setdefaultAppend l k v).map Prod.fst ↔ k' = k ∨ k' ∈ l.map Prod.fst := by
  induction l with
  | nil => simp [setdefaultAppend]
  | cons hd tl ih =>
    obtain ⟨k0, vs⟩ := hd
    by_cases h0 : k0 = k
    · rw [show setdefaultAppend ((k0, vs) :: tl) k v = (k0, vs ++ [v]) :: tl from by
        rw [setdefaultAppend_cons, if_pos h0]]
      simp only [List.map_cons, List.mem_cons, ← h0]
      tauto
    · rw [show setdefaultAppend ((k0, vs) :: tl) k v = (k0, vs) :: setdefaultAppend tl k v from by
        rw [setdefaultAppend_cons, if_neg h0]]
      simp only [List.map_cons, List.mem_cons, ih]
      tauto

theorem setdefault_flatten_perm [DecidableEq κ] (l : List (κ × List β)) (k : κ) (v : β) :
    ((setdefaultAppend l k v).map Prod.snd).flatten.Perm
      ((l.map Prod.snd).flatten ++ [v]) := by
  induction l with
  | nil => simp [setdefaultAppend]
  | cons hd tl ih =>
    obtain ⟨k0, vs⟩ := hd
    by_cases h0 : k0 = k
    · rw [show setdefaultAppend ((k0, vs) :: tl) k v = (k0, vs ++ [v]) :: tl from by
        rw [setdefaultAppend_cons, if_pos h0]]
      simp only [List.map_cons, List.flatten_cons]
      have h1 : (([v] : List β) ++ (tl.map Prod.snd).flatten).Perm
          ((tl.map Prod.snd).flatten ++ [v]) := List.perm_append_comm
      simpa [List.append_assoc] using h1.append_left vs
    · rw [show setdefaultAppend ((k0, vs) :: tl) k v = (k0, vs) :: setdefaultAppend tl k v from by
        rw [setdefaultAppend_cons, if_neg h0]]
      simp only [List.map_cons, List.flatten_cons]
      simpa [List.append_assoc] using ih.append_left vs

theorem exists_bucket_setdefault_self [DecidableEq κ] (l : List (κ × List β)) (k : κ) (v : β) :
    ∃ b, alookup (setdefaultAppend l k v) k = some b ∧ v ∈ b := by
  induction l with
  | nil => exact ⟨[v], by simp [setdefaultAppend, alookup], by simp⟩
  | cons hd tl ih =>
    obtain ⟨k0, vs⟩ := hd
    by_cases h0 : k0 = k
    · refine ⟨vs ++ [v], ?_, by simp⟩
      rw [show setdefaultAppend ((k0, vs) :: tl) k v = (k0, vs ++ [v]) :: tl from by
        rw [setdefaultAppend_cons, if_pos h0]]
      rw [alookup_cons, if_pos h0.symm]
    · obtain ⟨b, hb, hv⟩ := ih
      refine ⟨b, ?_, hv⟩
      rw [show setdefaultAppend ((k0, vs) :: tl) k v = (k0, vs) :: setdefaultAppend tl k v from by
        rw [setdefaultAppend_cons, if_neg h0]]
      rw [alookup_cons, if_neg (fun he => h0 he.symm)]
      exact hb

theorem exists_bucket_setdefault_mono [DecidableEq κ] (l : List (κ × List β)) (k k' : κ)
    (v x : β) (b : List β) (hb : alookup l k = some b) (hx : x ∈ b) :
    ∃ b', alookup (setdefaultAppend l k' v) k = some b' ∧ x ∈ b' := by
  induction l with
  | nil => simp [alookup] at hb
  | cons hd tl ih =>
    obtain ⟨k0, vs⟩ := hd
    by_cases h1 : k = k0
    · rw [alookup_cons, if_pos h1, Option.some.injEq] at hb
      by_cases h0 : k0 = k'
      · refine ⟨vs ++ [v], ?_, ?_⟩
        · rw [show setdefaultAppend ((k0, vs) :: tl) k' v = (k0, vs ++ [v]) :: tl from by
            rw [setdefaultAppend_cons, if_pos h0]]
          rw [alookup_cons, if_pos h1]
        · rw [← hb] at hx
          exact List.mem_append_left _ hx
      · refine ⟨vs, ?_, ?_⟩
        · rw [show setdefaultAppend ((k0, vs) :: tl) k' v =
              (k0, vs) :: setdefaultAppend tl k' v from by
            rw [setdefaultAppend_cons, if_neg h0]]
          rw [alookup_cons, if_pos h1]
        · rw [← hb] at hx
          exact hx
    · rw [alookup_cons, if_neg h1] at hb
      by_cases h0 : k0 = k'
      · refine ⟨b, ?_, hx⟩
        rw [show setdefaultAppend ((k0, vs) :: tl) k' v = (k0, vs ++ [v]) :: tl from by
          rw [setdefaultAppend_cons, if_pos h0]]
        rw [alookup_cons, if_neg h1]
        exact hb
      · obtain ⟨b', hb', hx'⟩ := ih hb
        refine ⟨b', ?_, hx'⟩
        rw [show setdefaultAppend ((k0, vs) :: tl) k' v =
            (k0, vs) :: setdefaultAppend tl k' v from by
          rw [setdefaultAppend_cons, if_neg h0]]
        rw [alookup_cons, if_neg h1]
        exact hb'

/-! ## Stable-sort lemmas -/

theorem orderedInsertStable_perm (lt : α → α → Bool) (x : α) (l : List α) :
    (orderedInsertStable lt x l).Perm (x :: l) := by
  induction l with
  | nil => simp [orderedInsertStable]
  | cons y ys ih =>
    by_cases h : lt x y
    · simp [orderedInsertStable, h]
    · simp only [orderedInsertStable, if_neg h]
      exact (ih.cons y).trans (List.Perm.swap x y ys)

theorem pyStableSort_foldl_perm (lt : α → α → Bool) :
    ∀ (l acc : List α), (l.foldl (fun acc x => orderedInsertStable lt x acc) acc).Perm (l ++ acc) := by
  intro l
  induction l with
  | nil => simp
  | cons x xs ih =>
    intro acc
    have h1 := ih (orderedInsertStable lt x acc)
    have h2 : (xs ++ orderedInsertStable lt x acc).Perm (xs ++ x :: acc) :=
      (orderedInsertStable_perm lt x acc).append_left xs
    have h3 : (xs ++ x :: acc).Perm (x :: (xs ++ acc)) := List.perm_middle
    exact ((h1.trans h2).trans h3)

theorem pyStableSort_perm (lt : α → α → Bool) (l : List α) :
    (pyStableSort lt l).Perm l := by
  simpa using pyStableSort_foldl_perm lt l []

theorem mem_pyStableSort (lt : α → α → Bool) (l : List α) (x : α) :
    x ∈ pyStableSort lt l ↔ x ∈ l :=
  (pyStableSort_perm lt l).mem_iff

theorem orderedInsertStable_natkey_sorted (key : α → Nat) (x : α) (l : List α)
    (h : l.Pairwise (fun a b => key a ≤ key b)) :
    (orderedInsertStable (fun a b => decide (key a < key b)) x l).Pairwise
      (fun a b => key a ≤ key b) := by
  induction l with
  | nil => simp [orderedInsertStable]
  | cons y ys ih =>
    rw [List.pairwise_cons] at h
    by_cases hlt : key x < key y
    · simp only [orderedInsertStable, if_pos (decide_eq_true hlt)]
      rw [List.pairwise_cons]
      refine ⟨fun b hb => ?_, List.pairwise_cons.2 h⟩
      rcases List.mem_cons.1 hb with h1 | h1
      · subst h1
        omega
      · have := h.1 b h1
        omega
    · have hge : key y ≤ key x := by omega
      have hd : decide (key x < key y) = false := decide_eq_false hlt
      simp only [orderedInsertStable, hd, Bool.false_eq_true, if_false]
      rw [List.pairwise_cons]
      refine ⟨fun b hb => ?_, ih h.2⟩
      rcases List.mem_cons.1 ((orderedInsertStable_perm _ x ys).mem_iff.1 hb) with h1 | h1
      · exact h1 ▸ hge
      · exact h.1 b h1

theorem pyStableSort_natkey_sorted (key : α → Nat) (l : List α) :
    (pyStableSort (fun a b => decide (key a < key b)) l).Pairwise
      (fun a b => key a ≤ key b) := by
  suffices h : ∀ (l acc : List α), acc.Pairwise (fun a b => key a ≤ key b) →
      (l.foldl (fun acc x => orderedInsertStable (fun a b => decide (key a < key b)) x acc)
        acc).Pairwise (fun a b => key a ≤ key b) by
    exact h l [] (by simp)
  intro l
  induction l with
  | nil => exact fun acc h => h
  | cons x xs ih =>
    intro acc hacc
    exact ih _ (orderedInsertStable_natkey_sorted key x acc hacc)

/-! ## Override-pass lemmas -/

theorem normalizeGroup_cons (e : ConfigEntry) (rest : List ConfigEntry) :
    normalizeGroup (e :: rest) =
      (if ((rest.map (·.scope)).reverse).isEmpty then
        { e with overridden_by := (rest.map (·.scope)).reverse, is_active := true }
       else { e with overridden_by := (rest.map (·.scope)).reverse }) :: normalizeGroup rest := rfl

theorem normalizeGroup_length (l : List ConfigEntry) :
    (normalizeGroup l).length = l.length := by
  induction l with
  | nil => rfl
  | cons e rest ih =>
    rw [normalizeGroup_cons]
    split <;> simp [ih]

theorem normalizeGroup_map_projE (l : List ConfigEntry) :
    (normalizeGroup l).map projE = l.map projE := by
  induction l with
  | nil => rfl
  | cons e rest ih =>
    rw [normalizeGroup_cons]
    split <;> simp [projE, ih]

theorem normalizeGroup_getq_overridden :
    ∀ (l : List ConfigEntry) (i : Nat) (x : ConfigEntry), (normalizeGroup l)[i]? = some x →
      x.overridden_by = ((l.drop (i + 1)).map (·.scope)).reverse := by
  intro l
  induction l with
  | nil => intro i x hx; simp [normalizeGroup] at hx
  | cons e rest ih =>
    intro i x hx
    cases i with
    | zero =>
      rw [normalizeGroup_cons, List.getElem?_cons_zero, Option.some.injEq] at hx
      rw [← hx]
      split <;> simp
    | succ n =>
      rw [normalizeGroup_cons, List.getElem?_cons_succ] at hx
      exact ih n x hx

theorem normalizeGroup_getq_is_active (l : List ConfigEntry)
    (hall : ∀ e ∈ l, e.is_active = false) :
    ∀ (i : Nat) (x : ConfigEntry), (normalizeGroup l)[i]? = some x →
      (x.is_active = true ↔ i = l.length - 1) := by
  induction l with
  | nil => intro i x hx; simp [normalizeGroup] at hx
  | cons e rest ih =>
    intro i x hx
    cases i with
    | zero =>
      rw [normalizeGroup_cons, List.getElem?_cons_zero, Option.some.injEq] at hx
      rw [← hx]
      cases rest with
      | nil => simp
      | cons r rs =>
        have hne : (((r :: rs).map (·.scope)).reverse).isEmpty = false := by simp
        rw [hne]
        simp only [Bool.false_eq_true, if_false]
        have he : e.is_active = false := hall e (List.mem_cons_self _ _)
        simp [he]
    | succ n =>
      rw [normalizeGroup_cons, List.getElem?_cons_succ] at hx
      have h3 := ih (fun y hy => hall y (List.mem_cons_of_mem _ hy)) n x hx
      rw [h3]
      have h4 : n < rest.length := by
        rw [← normalizeGroup_length]
        exact (List.getElem?_eq_some_iff.1 hx).choose
      simp only [List.length_cons]
      omega

/-! ## Parser helper lemmas -/

theorem scopeFromGit_not_ok (t : String) (h : isOkE (ConfigScope.fromGit t) = false) :
    ConfigScope.fromGit t = .error (.validationError ("Unsupported Git scope '" ++ t ++ "'.")) := by
  by_cases h1 : pyLower (pyStrip t) = "system"
  · simp [ConfigScope.fromGit, h1, isOkE] at h
  · by_cases h2 : pyLower (pyStrip t) = "global"
    · simp [ConfigScope.fromGit, h1, h2, isOkE] at h
    · by_cases h3 : pyLower (pyStrip t) = "local"
      · simp [ConfigScope.fromGit, h1, h2, h3, isOkE] at h
      · simp [ConfigScope.fromGit, h1, h2, h3]

theorem takeWhile_append_of_all {α : Type _} (p : α → Bool) :
    ∀ (l : List α) (c : α) (r : List α), (∀ a ∈ l, p a = true) → p c = false →
      (l ++ c :: r).takeWhile p = l := by
  intro l
  induction l with
  | nil =>
    intro c r _ hc
    simp [List.takeWhile, hc]
  | cons a as ih =>
    intro c r hall hc
    have ha : p a = true := hall a (List.mem_cons_self _ _)
    simp only [List.cons_append, List.takeWhile_cons, ha, if_true]
    rw [ih c r (fun x hx => hall x (List.mem_cons_of_mem _ hx)) hc]

theorem dropWhile_append_of_all {α : Type _} (p : α → Bool) :
    ∀ (l : List α) (c : α) (r : List α), (∀ a ∈ l, p a = true) → p c = false →
      (l ++ c :: r).dropWhile p = c :: r := by
  intro l
  induction l with
  | nil =>
    intro c r _ hc
    simp [List.dropWhile, hc]
  | cons a as ih =>
    intro c r hall hc
    have ha : p a = true := hall a (List.mem_cons_self _ _)
    simp only [List.cons_append, List.dropWhile_cons, ha, if_true]
    exact ih c r (fun x hx => hall x (List.mem_cons_of_mem _ hx)) hc

theorem dropWhile_eq_nil_of_all {α : Type _} (p : α → Bool) :
    ∀ (l : List α), (∀ a ∈ l, p a = true) → l.dropWhile p = [] := by
  intro l
  induction l with
  | nil => intro _; rfl
  | cons a as ih =>
    intro hall
    have ha : p a = true := hall a (List.mem_cons_self _ _)
    simp only [List.dropWhile_cons, ha, if_true]
    exact ih (fun x hx => hall x (List.mem_cons_of_mem _ hx))

theorem dropWhile_eq_self_of_all_false {α : Type _} (p : α → Bool) (l : List α)
    (h : ∀ a ∈ l, p a = false) : l.dropWhile p = l := by
  cases l with
  | nil => rfl
  | cons a as =>
    have ha : p a = false := h a (List.mem_cons_self _ _)
    simp [List.dropWhile_cons, ha]

theorem pyRstripNl_of_no_newline (l : List Char) (h : ∀ c ∈ l, (c == '\n') = false) :
    pyRstripNlL l = l := by
  unfold pyRstripNlL
  rw [dropWhile_eq_self_of_all_false _ _ (fun c hc => h c (List.mem_reverse.1 hc))]
  exact List.reverse_reverse l

theorem parseRecordsAux_blank (env : Env) :
    ∀ (lines : List String), (∀ l ∈ lines, pyStrip l = "") →
      parseRecordsAux env lines = .ok [] := by
  intro lines
  induction lines with
  | nil => intro _; rfl
  | cons raw rest ih =>
    intro hall
    have h0 : pyStrip raw = "" := hall raw (List.mem_cons_self _ _)
    unfold parseRecordsAux
    rw [if_pos h0]
    exact ih (fun x hx => hall x (List.mem_cons_of_mem _ hx))

/-! ## Builder inversion lemmas -/

theorem mkConfigSnapshot_ok_inv (scopes : List (ConfigScope × ScopeMetadata))
    (entries : List ConfigEntry) (em : List (String × EffectiveConfig)) (snap : ConfigSnapshot)
    (h : mkConfigSnapshot scopes entries em = .ok snap) : snap = ⟨scopes, entries, em⟩ := by
  unfold mkConfigSnapshot at h
  cases hf : findDuplicatePair entries [] with
  | some ks => rw [hf] at h; cases h
  | none =>
    rw [hf] at h
    by_cases hm : ((entries.map (·.key)).filter (fun k => (alookup em k).isNone)).isEmpty = true
    · simp only [hm, Bool.not_true, Bool.false_eq_true, if_false] at h
      exact (Except.ok.inj h).symm
    · rw [Bool.not_eq_true] at hm
      simp only [hm, Bool.not_false, if_true] at h
      cases h

theorem mkEntryForItem_ok_inv (env : Env) (counts : List ((String × ConfigScope) × Nat))
    (item : (String × ConfigScope) × RawConfigRecord) (e : ConfigEntry)
    (h : mkEntryForItem env counts item = .ok e) : e = entryOf env counts item := by
  by_cases hk : keyPatternMatch item.2.key
  · unfold mkEntryForItem mkConfigEntry at h
    simp only [hk, Bool.not_true, Bool.false_eq_true, if_false, listHasDup,
      List.any_nil] at h
    exact (Except.ok.inj h).symm
  · unfold mkEntryForItem mkConfigEntry at h
    rw [Bool.not_eq_true] at hk
    simp only [hk, Bool.not_false, if_true] at h
    cases h

/-! ## Except bind inversion -/

theorem bind_ok_inv {α β : Type _} {x : Except GitcfgError α} {f : α → Except GitcfgError β}
    {b : β} (h : (do let a ← x; f a) = Except.ok b) : ∃ a, x = .ok a ∧ f a = .ok b := by
  cases x with
  | error e => cases h
  | ok a => exact ⟨a, rfl, h⟩

/-! ## First-pass (deduplication) lemmas -/

theorem phase1Step_ksmap (st : Phase1State) (r : RawConfigRecord) :
    (phase1Step st r).key_scope_map = upsertA st.key_scope_map (r.key, r.scope) r := rfl

theorem phase1Step_counts (st : Phase1State) (r : RawConfigRecord) :
    (phase1Step st r).duplicate_counts =
      upsertA st.duplicate_counts (r.key, r.scope)
        ((alookup st.duplicate_counts (r.key, r.scope)).getD 0 + 1) := rfl

theorem phase1_foldl_ksmap (records : List RawConfigRecord) :
    ∀ (st : Phase1State) (ks : String × ConfigScope),
      alookup (records.foldl phase1Step st).key_scope_map ks =
        (match lastMatch ks records with
         | some r => some r
         | none => alookup st.key_scope_map ks) := by
  induction records with
  | nil => intro st ks; simp [lastMatch]
  | cons r rest ih =>
    intro st ks
    rw [List.foldl_cons, ih]
    cases hlm : lastMatch ks rest with
    | some rx => simp [lastMatch, hlm]
    | none =>
      simp only [lastMatch, hlm]
      rw [phase1Step_ksmap, alookup_upsert]
      by_cases hm : (r.key, r.scope) = ks
      · simp [hm]
      · have hm2 : ¬ ks = (r.key, r.scope) := fun hh => hm hh.symm
        simp [hm, hm2]

theorem phase1_foldl_counts (records : List RawConfigRecord) :
    ∀ (st : Phase1State) (ks : String × ConfigScope),
      (alookup (records.foldl phase1Step st).duplicate_counts ks).getD 0 =
        records.countP (fun r => decide ((r.key, r.scope) = ks)) +
          (alookup st.duplicate_counts ks).getD 0 := by
  induction records with
  | nil => intro st ks; simp
  | cons r rest ih =>
    intro st ks
    rw [List.foldl_cons, ih, List.countP_cons, phase1Step_counts, alookup_upsert]
    by_cases hm : (r.key, r.scope) = ks
    · rw [if_pos hm.symm, hm]
      simp only [Option.getD_some, decide_True, if_true, eq_self_iff_true]
      omega
    · have hm2 : ¬ ks = (r.key, r.scope) := fun hh => hm hh.symm
      rw [if_neg hm2]
      simp only [hm, decide_False, Bool.false_eq_true, if_false]
      omega

theorem phase1_foldl_nodup (records : List RawConfigRecord) :
    ∀ (st : Phase1State), ((st.key_scope_map.map Prod.fst).Nodup) →
      (((records.foldl phase1Step st).key_scope_map.map Prod.fst).Nodup) := by
  induction records with
  | nil => intro st h; exact h
  | cons r rest ih =>
    intro st h
    rw [List.foldl_cons]
    exact ih _ (by rw [phase1Step_ksmap]; exact nodup_keys_upsert _ _ _ h)

theorem mem_upsertA [DecidableEq κ] (l : List (κ × β)) (k : κ) (v : β) (it : κ × β)
    (h : it ∈ upsertA l k v) : it = (k, v) ∨ it ∈ l := by
  induction l with
  | nil => simpa [upsertA] using h
  | cons hd tl ih =>
    obtain ⟨k0, v0⟩ := hd
    by_cases h0 : k0 = k
    · rw [show upsertA ((k0, v0) :: tl) k v = (k0, v) :: tl from by
        rw [upsertA_cons, if_pos h0]] at h
      rcases List.mem_cons.1 h with h1 | h1
      · left; rw [h1, h0]
      · right; exact List.mem_cons_of_mem _ h1
    · rw [show upsertA ((k0, v0) :: tl) k v = (k0, v0) :: upsertA tl k v from by
        rw [upsertA_cons, if_neg h0]] at h
      rcases List.mem_cons.1 h with h1 | h1
      · right; rw [h1]; exact List.mem_cons_self _ _
      · rcases ih h1 with h2 | h2
        · left; exact h2
        · right; exact List.mem_cons_of_mem _ h2

theorem phase1_foldl_consistent (records : List RawConfigRecord) :
    ∀ (st : Phase1State),
      (∀ it ∈ st.key_scope_map, (it.2.key, it.2.scope) = it.1) →
      (∀ it ∈ (records.foldl phase1Step st).key_scope_map, (it.2.key, it.2.scope) = it.1) := by
  induction records with
  | nil => intro st h; exact h
  | cons r rest ih =>
    intro st h
    rw [List.foldl_cons]
    refine ih _ (fun it hit => ?_)
    rw [phase1Step_ksmap] at hit
    rcases mem_upsertA _ _ _ _ hit with h1 | h1
    · rw [h1]
    · exact h it h1

theorem lastMatch_isSome_of_countP_pos (ks : String × ConfigScope) :
    ∀ (records : List RawConfigRecord),
      0 < records.countP (fun r => decide ((r.key, r.scope) = ks)) →
      (lastMatch ks records).isSome = true := by
  intro records
  induction records with
  | nil => intro h; simp at h
  | cons r rest ih =>
    intro h
    unfold lastMatch
    cases hlm : lastMatch ks rest with
    | some rx => simp
    | none =>
      rw [List.countP_cons] at h
      by_cases hm : (r.key, r.scope) = ks
      · simp [hm]
      · have hd : (decide ((r.key, r.scope) = ks)) = false := decide_eq_false hm
        rw [hd] at h
        simp only [Bool.false_eq_true, if_false, Nat.add_zero] at h
        have h0 : rest.countP (fun r => decide ((r.key, r.scope) = ks)) = 0 := by
          by_contra hc
          have h1 := ih (Nat.pos_of_ne_zero hc)
          rw [hlm] at h1
          cases h1
        omega

/-! ## Second-pass (entry construction) lemmas -/

theorem phase2_ok_flatten_perm (env : Env) (counts : List ((String × ConfigScope) × Nat)) :
    ∀ (items : List ((String × ConfigScope) × RawConfigRecord))
      (acc res : List (String × List ConfigEntry)),
      phase2 env counts items acc = .ok res →
      ((res.map Prod.snd).flatten).Perm
        ((acc.map Prod.snd).flatten ++ items.map (entryOf env counts)) := by
  intro items
  induction items with
  | nil =>
    intro acc res h
    unfold phase2 at h
    rw [← Except.ok.inj h]
    simp
  | cons item rest ih =>
    intro acc res h
    unfold phase2 at h
    obtain ⟨entry, he, h2⟩ := bind_ok_inv h
    have hperm := ih _ _ h2
    have hent : entry = entryOf env counts item := mkEntryForItem_ok_inv _ _ _ _ he
    rw [hent] at hperm
    refine hperm.trans ?_
    have h4 := setdefault_flatten_perm acc item.2.key (entryOf env counts item)
    have h5 := h4.append_right (rest.map (entryOf env counts))
    refine h5.trans ?_
    rw [List.append_assoc, List.map_cons, List.singleton_append]

theorem flatten_norm_sort_projE :
    ∀ (L : List (String × List ConfigEntry)),
      (((L.map (fun g => normalizeGroup (pyStableSort entryPrecLt g.2))).flatten).map projE).Perm
        (((L.map Prod.snd).flatten).map projE) := by
  intro L
  induction L with
  | nil => simp
  | cons g rest ih =>
    simp only [List.map_cons, List.flatten_cons, List.map_append]
    refine List.Perm.append ?_ ih
    rw [normalizeGroup_map_projE]
    exact (pyStableSort_perm entryPrecLt g.2).map projE

theorem buildEntries_ok_inv (env : Env) (records : List RawConfigRecord)
    (es : List ConfigEntry) (md : List (ConfigScope × ScopeMetadata))
    (h : buildEntries env records = .ok (es, md)) :
    ∃ ebk, phase2 env (phase1 records).duplicate_counts (phase1 records).key_scope_map [] = .ok ebk ∧
      es = pyStableSort entrySortLt3
        ((ebk.map (fun g => normalizeGroup (pyStableSort entryPrecLt g.2))).flatten) := by
  unfold buildEntries at h
  obtain ⟨ebk, hp, h2⟩ := bind_ok_inv h
  have h3 := Except.ok.inj h2
  exact ⟨ebk, hp, (congrArg Prod.fst h3).symm⟩

theorem buildEntries_projE_perm (env : Env) (records : List RawConfigRecord)
    (es : List ConfigEntry) (md : List (ConfigScope × ScopeMetadata))
    (h : buildEntries env records = .ok (es, md)) :
    (es.map projE).Perm
      (((phase1 records).key_scope_map).map
        (fun it => projE (entryOf env (phase1 records).duplicate_counts it))) := by
  obtain ⟨ebk, hp, hes⟩ := buildEntries_ok_inv env records es md h
  rw [hes]
  have h1 : ((pyStableSort entrySortLt3
      ((ebk.map (fun g => normalizeGroup (pyStableSort entryPrecLt g.2))).flatten)).map projE).Perm
      (((ebk.map (fun g => normalizeGroup (pyStableSort entryPrecLt g.2))).flatten).map projE) :=
    (pyStableSort_perm _ _).map projE
  refine h1.trans ((flatten_norm_sort_projE ebk).trans ?_)
  have h2 := phase2_ok_flatten_perm env (phase1 records).duplicate_counts
    (phase1 records).key_scope_map [] ebk hp
  simp only [List.map_nil, List.flatten_nil, List.nil_append] at h2
  have h3 := h2.map projE
  rw [List.map_map] at h3
  exact h3

theorem countP_keyfst_eq_one [DecidableEq κ] {β : Type _} :
    ∀ (l : List (κ × β)) (ks : κ), ((l.map Prod.fst).Nodup) →
      (alookup l ks).isSome = true →
      l.countP (fun it => decide (it.1 = ks)) = 1 := by
  intro l
  induction l with
  | nil => intro ks _ h; simp [alookup] at h
  | cons hd tl ih =>
    intro ks hnd hs
    obtain ⟨k0, v0⟩ := hd
    simp only [List.map_cons, List.nodup_cons] at hnd
    rw [List.countP_cons]
    by_cases h0 : k0 = ks
    · have hz : tl.countP (fun it => decide (it.1 = ks)) = 0 := by
        rw [List.countP_eq_zero]
        intro it hit
        simp only [decide_eq_true_iff]
        intro he
        exact hnd.1 (h0 ▸ he ▸ List.mem_map_of_mem Prod.fst hit)
      simp [hz, h0]
    · rw [alookup_cons, if_neg (fun hh => h0 hh.symm)] at hs
      have := ih ks hnd.2 hs
      simp [this, h0]

/-! ## Effective-map lemmas -/

theorem foldl_setdefault_keys_iff {β : Type _} {κ : Type _} [DecidableEq κ] (f : β → κ) :
    ∀ (l : List β) (acc : List (κ × List β)) (k : κ),
      (k ∈ (l.foldl (fun g e => setdefaultAppend g (f e) e) acc).map Prod.fst ↔
        (k ∈ acc.map Prod.fst ∨ ∃ e ∈ l, f e = k)) := by
  intro l
  induction l with
  | nil => intro acc k; simp
  | cons e rest ih =>
    intro acc k
    rw [List.foldl_cons, ih]
    rw [mem_keys_setdefault]
    simp only [List.mem_cons]
    constructor
    · rintro (⟨h1 | h1⟩ | ⟨x, hx, h2⟩)
      · exact Or.inr ⟨e, Or.inl rfl, h1.symm⟩
      · exact Or.inl h1
      · exact Or.inr ⟨x, Or.inr hx, h2⟩
    · rintro (h1 | ⟨x, hx | hx, h2⟩)
      · exact Or.inl (Or.inr h1)
      · exact Or.inl (Or.inl (hx ▸ h2.symm))
      · exact Or.inr ⟨x, hx, h2⟩

theorem effFold_ok_keys :
    ∀ (grouped : List (String × List ConfigEntry)) (acc em : List (String × EffectiveConfig)),
      effFold grouped acc = .ok em →
      ∀ k, ((alookup em k).isSome = true ↔
        ((alookup acc k).isSome = true ∨ k ∈ grouped.map Prod.fst)) := by
  intro grouped
  induction grouped with
  | nil =>
    intro acc em h k
    unfold effFold at h
    rw [← Except.ok.inj h]
    simp
  | cons g rest ih =>
    intro acc em h k
    obtain ⟨key, key_entries⟩ := g
    unfold effFold at h
    split at h
    · cases h
    · rename_i active_entry hfind
      obtain ⟨ec, hec, h2⟩ := bind_ok_inv h
      have h1 := ih _ _ h2 k
      rw [h1, alookup_upsert]
      by_cases h3 : k = key
      · simp [h3]
      · simp only [h3, if_false, List.map_cons, List.mem_cons]
        tauto

theorem buildEffectiveMap_ok_keys (entries : List ConfigEntry)
    (em : List (String × EffectiveConfig)) (h : buildEffectiveMap entries = .ok em) :
    ∀ k, ((alookup em k).isSome = true ↔ ∃ e ∈ entries, e.key = k) := by
  intro k
  unfold buildEffectiveMap at h
  have h1 := effFold_ok_keys _ _ _ h k
  rw [h1]
  rw [foldl_setdefault_keys_iff (fun e : ConfigEntry => e.key) entries [] k]
  simp [alookup]

/-! ## Top-level parse inversion -/

theorem parse_ok_chain (env : Env) (output : String) (snap : ConfigSnapshot)
    (records : List RawConfigRecord) (hrec : parseRecords env output = .ok records)
    (hne : records ≠ []) (h : parseGitConfigOutput env output = .ok snap) :
    ∃ es md em, buildEntries env records = .ok (es, md) ∧
      buildEffectiveMap es = .ok em ∧ snap = ⟨md, es, em⟩ := by
  unfold parseGitConfigOutput at h
  obtain ⟨records2, hrec2, h1⟩ := bind_ok_inv h
  have hreq : records2 = records := Except.ok.inj (hrec.symm.trans hrec2).symm
  subst hreq
  have hemp : records2.isEmpty = false := by
    cases records2 with
    | nil => exact absurd rfl hne
    | cons a b => rfl
  rw [hemp] at h1
  have h2 : (do
      let p ← buildEntries env records2
      let effective_map ← buildEffectiveMap p.1
      mkConfigSnapshot p.2 p.1 effective_map) = Except.ok snap := h1
  obtain ⟨p, hbe, h3⟩ := bind_ok_inv h2
  obtain ⟨es, md⟩ := p
  obtain ⟨em, hem, h4⟩ := bind_ok_inv h3
  exact ⟨es, md, em, hbe, hem, mkConfigSnapshot_ok_inv _ _ _ _ h4⟩

theorem parse_ok_empty (env : Env) (output : String) (snap : ConfigSnapshot)
    (hrec : parseRecords env output = .ok []) (h : parseGitConfigOutput env output = .ok snap) :
    snap = ⟨[], [], []⟩ := by
  unfold parseGitConfigOutput at h
  obtain ⟨records2, hrec2, h1⟩ := bind_ok_inv h
  have hreq : records2 = ([] : List RawConfigRecord) := Except.ok.inj (hrec.symm.trans hrec2).symm
  subst hreq
  have h2 : mkConfigSnapshot [] [] [] = Except.ok snap := h1
  exact mkConfigSnapshot_ok_inv _ _ _ _ h2

/-! ## Grouping membership lemmas -/

theorem foldl_setdefault_preserve {β κ : Type _} [DecidableEq κ] (f : β → κ) :
    ∀ (l : List β) (acc : List (κ × List β)) (k : κ) (b0 : List β) (x : β),
      alookup acc k = some b0 → x ∈ b0 →
      ∃ b, alookup (l.foldl (fun g e => setdefaultAppend g (f e) e) acc) k = some b ∧ x ∈ b := by
  intro l
  induction l with
  | nil => intro acc k b0 x hb hx; exact ⟨b0, hb, hx⟩
  | cons e rest ih =>
    intro acc k b0 x hb hx
    rw [List.foldl_cons]
    obtain ⟨b1, hb1, hx1⟩ := exists_bucket_setdefault_mono acc k (f e) e x b0 hb hx
    exact ih _ k b1 x hb1 hx1

theorem foldl_setdefault_mem {β κ : Type _} [DecidableEq κ] (f : β → κ) :
    ∀ (l : List β) (acc : List (κ × List β)) (x : β), x ∈ l →
      ∃ b, alookup (l.foldl (fun g e => setdefaultAppend g (f e) e) acc) (f x) = some b ∧ x ∈ b := by
  intro l
  induction l with
  | nil => intro acc x hx; simp at hx
  | cons e rest ih =>
    intro acc x hx
    rw [List.foldl_cons]
    rcases List.mem_cons.1 hx with h1 | h1
    · obtain ⟨b0, hb0, he0⟩ := exists_bucket_setdefault_self acc (f e) e
      refine foldl_setdefault_preserve f rest _ (f x) b0 x ?_ ?_
      · rw [h1]; exact hb0
      · rw [h1]; exact he0
    · exact ih _ x h1

theorem alookup_map_snd {κ γ δ : Type _} [DecidableEq κ] (h : γ → δ) :
    ∀ (l : List (κ × γ)) (k : κ),
      alookup (l.map (fun kv => (kv.1, h kv.2))) k = (alookup l k).map h := by
  intro l
  induction l with
  | nil => intro k; simp [alookup]
  | cons hd tl ih =>
    intro k
    obtain ⟨k0, v0⟩ := hd
    by_cases h0 : k = k0
    · simp [alookup_cons, h0]
    · simp [alookup_cons, h0, ih]

/-! ## Line-splitting lemma for malformed lines -/

theorem splitLine_not3 (line : String) (h : (pySplitNone2 line).length ≠ 3) :
    splitLine line =
      .error (.configurationError ("Unexpected git config output format: " ++ line)) := by
  unfold splitLine
  cases hsp : pySplitNone2 line with
  | nil => rfl
  | cons a l1 =>
    cases l1 with
    | nil => rfl
    | cons b l2 =>
      cases l2 with
      | nil => rfl
      | cons c l3 =>
        cases l3 with
        | nil => rw [hsp] at h; simp at h
        | cons d l4 => rfl

theorem findDuplicatePair_none_iff :
    ∀ (entries : List ConfigEntry) (seen : List (String × ConfigScope)),
      findDuplicatePair entries seen = none ↔
        ((entries.map (fun e => (e.key, e.scope))).Nodup ∧
          ∀ p ∈ entries.map (fun e => (e.key, e.scope)), p ∉ seen) := by
  intro entries
  induction entries with
  | nil => intro seen; simp [findDuplicatePair]
  | cons e rest ih =>
    intro seen
    unfold findDuplicatePair
    by_cases h0 : (e.key, e.scope) ∈ seen
    · rw [if_pos h0]
      simp [h0]
    · rw [if_neg h0, ih]
      simp only [List.map_cons]
      constructor
      · rintro ⟨hnd, hall⟩
        refine ⟨List.nodup_cons.2 ⟨fun hmem => ?_, hnd⟩, ?_⟩
        · exact (hall _ hmem) (List.mem_cons_self _ _)
        · intro p hp
          rcases List.mem_cons.1 hp with h1 | h1
          · rw [h1]; exact h0
          · exact fun hs => (hall p h1) (List.mem_cons_of_mem _ hs)
      · rintro ⟨hnd, hall⟩
        have hnd2 := List.nodup_cons.1 hnd
        refine ⟨hnd2.2, fun p hp hmem => ?_⟩
        rcases List.mem_cons.1 hmem with h1 | h1
        · exact hnd2.1 (h1 ▸ hp)
        · exact (hall p (List.mem_cons_of_mem _ hp)) h1

/-! ## Claim theorems -/

/-- C1: the spec (and the repository's own test
test_parse_git_config_output_accepts_branch_key_with_slash) require a key such
as branch.feature/my-branch.merge to parse successfully with its value
round-tripped; the code instead rejects it, because ConfigEntry's _KEY_PATTERN
regex [A-Za-z0-9.-]+ does not admit a slash, so parse_git_config_output raises
a pydantic ValidationError on such a line.  The line-level key=value split
itself would round-trip the value (third conjunct); the model validator is
what fails. -/
theorem c1_slash_key_rejected :
    keyPatternMatch "branch.feature/my-branch.merge" = false ∧
    parseGitConfigOutput sampleEnv
        "global file:/tmp/gitconfig branch.feature/my-branch.merge=refs/heads/feature/my-branch" =
      .error (.pydanticError "Invalid git configuration key format.") ∧
    parseKeyValue "branch.feature/my-branch.merge=refs/heads/feature/my-branch" =
      .ok ("branch.feature/my-branch.merge", "refs/heads/feature/my-branch") :=
  ⟨rfl, rfl, rfl⟩

/-- C9: parsing the empty string, or input consisting only of blank lines,
raises no error and yields a snapshot with empty scopes, entries and
effective map. -/
theorem c9_empty_input :
    parseGitConfigOutput sampleEnv "" = .ok ⟨[], [], []⟩ ∧
    (∀ (env : Env) (output : String), (∀ l ∈ pySplitLines output, pyStrip l = "") →
      parseGitConfigOutput env output = .ok ⟨[], [], []⟩) := by
  constructor
  · rfl
  · intro env output hall
    unfold parseGitConfigOutput parseRecords
    rw [parseRecordsAux_blank env _ hall]
    rfl

/-- C9 witness: a concrete input of blank lines parses to the empty snapshot. -/
theorem c9_empty_input_witness :
    parseGitConfigOutput sampleEnv "\n   \n\t\n" = .ok ⟨[], [], []⟩ :=
  c9_empty_input.2 sampleEnv "\n   \n\t\n" (by decide)

/-- C2 counterexample: the line "local file:/tmp/x =v" has exactly three
top-level whitespace-separated tokens, yet parsing fails with
ConfigurationError (empty key after trimming), refuting the claimed
"if and only if". -/
theorem c2_counterexample :
    (pySplitNone2 (pyStrip "local file:/tmp/x =v")).length = 3 ∧
    parseConfigLine sampleEnv (pyStrip "local file:/tmp/x =v") =
      .error (.configurationError "Encountered git configuration entry with empty key.") ∧
    parseGitConfigOutput sampleEnv "local file:/tmp/x =v" =
      .error (.configurationError "Encountered git configuration entry with empty key.") :=
  ⟨rfl, rfl, rfl⟩

/-- C2 (amended): for every non-blank line that does not split into exactly
three top-level tokens, parsing fails with ConfigurationError; and for every
line with exactly three top-level tokens whose first token is not a scope
name (case-insensitively), parsing fails with ValidationError.  (Three-token
lines can additionally fail with ConfigurationError for other reasons, e.g.
an empty key, so the original "if and only if" does not hold.) -/
theorem c2_amended :
    (∀ (env : Env) (line : String), pyStrip line ≠ "" →
      (pySplitNone2 (pyStrip line)).length ≠ 3 →
      parseConfigLine env (pyStrip line) =
        .error (.configurationError
          ("Unexpected git config output format: " ++ pyStrip line))) ∧
    (∀ (env : Env) (line : String) (t1 t2 t3 : String),
      pySplitNone2 (pyStrip line) = [t1, t2, t3] →
      isOkE (ConfigScope.fromGit t1) = false →
      parseConfigLine env (pyStrip line) =
        .error (.validationError ("Unsupported Git scope '" ++ t1 ++ "'."))) := by
  constructor
  · intro env line _ hlen
    unfold parseConfigLine
    rw [splitLine_not3 _ hlen]
    rfl
  · intro env line t1 t2 t3 hsp hbad
    have hsl : splitLine (pyStrip line) = .ok (t1, t2, t3) := by
      unfold splitLine
      rw [hsp]
    have hscope := scopeFromGit_not_ok t1 hbad
    have hred : parseConfigLine env (pyStrip line) =
        (do
          let scope ← ConfigScope.fromGit t1
          let op ← parseOrigin env t2
          let kv ← parseKeyValue t3
          Except.ok { scope := scope, origin := op.1, key := kv.1, value := kv.2,
                      file_origin := op.2 }) := by
      unfold parseConfigLine
      rw [hsl]
      rfl
    rw [hred, hscope]
    rfl

/-- C2 witness: the amended statement applied to a two-token line and to a
three-token line with an unknown scope token. -/
theorem c2_amended_witness :
    parseConfigLine sampleEnv (pyStrip "onlytwo tokens") =
      .error (.configurationError
        ("Unexpected git config output format: " ++ pyStrip "onlytwo tokens")) ∧
    parseConfigLine sampleEnv (pyStrip "foo file:/tmp/x a=b") =
      .error (.validationError ("Unsupported Git scope '" ++ "foo" ++ "'.")) := by
  constructor
  · exact c2_amended.1 sampleEnv "onlytwo tokens" (by decide) (by decide)
  · exact c2_amended.2 sampleEnv "foo file:/tmp/x a=b" "foo" "file:/tmp/x" "a=b"
      (by decide) (by decide)

/-- An entry whose category id is not in the curated table: used to refute C4. -/
def c4entry : ConfigEntry :=
  { key := "user.name", value := "x", scope := .GLOBAL, origin := "/g",
    category_id := "bogus", is_active := true, overridden_by := [], annotations := [] }

/-- C4 counterexample: an entry with unknown category id "bogus" but key
user.name is placed in the user-identity bucket (re-resolved from its key),
not in the uncategorized bucket, refuting the claim as stated. -/
theorem c4_counterexample :
    alookup categoryIndex "bogus" = none ∧
    alookup (groupEntriesByCategory [c4entry]) "uncategorized" = none ∧
    alookup (groupEntriesByCategory [c4entry]) "user-identity" = some [c4entry] :=
  ⟨rfl, rfl, rfl⟩

/-- C4 (amended): group_entries_by_category re-resolves an unknown category id
from the entry's key, placing the entry in the bucket of
resolve_category_id(key) — which is "uncategorized" only when the key matches
nothing — and never raises an error. -/
theorem c4_amended (entries : List ConfigEntry) (e : ConfigEntry) (he : e ∈ entries)
    (hunk : alookup categoryIndex e.category_id = none)
    (hnotsent : e.category_id ≠ UNCATEGORIZED_CATEGORY.id) :
    ∃ bucket, alookup (groupEntriesByCategory entries) (resolveCategoryId e.key) = some bucket ∧
      e ∈ bucket := by
  have hres : resolveEntryCategory e = resolveCategoryId e.key := by
    unfold resolveEntryCategory
    rw [hunk]
    simp [hnotsent]
  obtain ⟨b, hb, hxb⟩ := foldl_setdefault_mem resolveEntryCategory entries [] e he
  rw [hres] at hb
  refine ⟨pyStableSort entrySortLt2 b, ?_, (mem_pyStableSort _ _ _).2 hxb⟩
  unfold groupEntriesByCategory
  rw [alookup_map_snd, hb]
  rfl

/-- C4 witness: the amended statement applied to the concrete bogus-category
entry. -/
theorem c4_amended_witness :
    ∃ bucket, alookup (groupEntriesByCategory [c4entry]) (resolveCategoryId c4entry.key) =
      some bucket ∧ c4entry ∈ bucket :=
  c4_amended [c4entry] c4entry (List.mem_cons_self _ _) rfl (by decide)

/-- C7: the category resolver is total with lookup order exact table, then
glob patterns in declaration order (first match wins, case-sensitive), then
the uncategorized sentinel; blank keys resolve to the sentinel; and
remote.origin.url and branch.main.merge resolve to remote-settings while a
key matching nothing resolves to uncategorized. -/
theorem c7_category_resolution :
    (∀ key : String, pyStrip key = "" → resolveCategoryId key = UNCATEGORIZED_CATEGORY.id) ∧
    (∀ (key cid : String), pyStrip key ≠ "" →
      alookup explicitKeyIndex (pyStrip key) = some cid → resolveCategoryId key = cid) ∧
    (∀ (key cid : String), pyStrip key ≠ "" →
      alookup explicitKeyIndex (pyStrip key) = none →
      findFirstPattern (pyStrip key) wildcardPatterns = some cid →
      resolveCategoryId key = cid) ∧
    (∀ key : String, pyStrip key ≠ "" →
      alookup explicitKeyIndex (pyStrip key) = none →
      findFirstPattern (pyStrip key) wildcardPatterns = none →
      resolveCategoryId key = UNCATEGORIZED_CATEGORY.id) ∧
    resolveCategoryId "remote.origin.url" = "remote-settings" ∧
    resolveCategoryId "branch.main.merge" = "remote-settings" ∧
    resolveCategoryId "push.default" = UNCATEGORIZED_CATEGORY.id := by
  refine ⟨?_, ?_, ?_, ?_, rfl, rfl, rfl⟩
  · intro key h
    simp only [resolveCategoryId]
    rw [h]
    rfl
  · intro key cid hne hsome
    simp only [resolveCategoryId]
    rw [if_neg hne, hsome]
  · intro key cid hne hnone hpat
    simp only [resolveCategoryId]
    rw [if_neg hne, hnone, hpat]
  · intro key hne hnone hpat
    simp only [resolveCategoryId]
    rw [if_neg hne, hnone, hpat]

/-- C7 witness: the branches applied at concrete keys (an exact-table key with
surrounding whitespace, and the empty key). -/
theorem c7_category_resolution_witness :
    resolveCategoryId " user.name " = "user-identity" ∧
    resolveCategoryId "" = UNCATEGORIZED_CATEGORY.id := by
  constructor
  · exact c7_category_resolution.2.1 " user.name " "user-identity" (by decide) rfl
  · exact c7_category_resolution.1 "" rfl

/-- C8: the key=value payload splits only on the first equals sign, so the
value keeps any further equals signs intact; a payload with no equals sign
yields the empty value; and a payload whose key is blank after trimming fails
with ConfigurationError.  (Payload tokens never contain a newline, so the
source's value.rstrip of newlines is the identity on them.) -/
theorem c8_key_value_split :
    (∀ (payload : String) (kpart vpart : List Char),
      payload.data = kpart ++ '=' :: vpart → '=' ∉ kpart → '\n' ∉ vpart →
      pyStrip (String.mk kpart) ≠ "" →
      parseKeyValue payload = .ok (pyStrip (String.mk kpart), String.mk vpart)) ∧
    (∀ (payload : String) (kpart vpart : List Char),
      payload.data = kpart ++ '=' :: vpart → '=' ∉ kpart →
      pyStrip (String.mk kpart) = "" →
      parseKeyValue payload =
        .error (.configurationError "Encountered git configuration entry with empty key.")) ∧
    (∀ payload : String, '=' ∉ payload.data → pyStrip payload ≠ "" →
      parseKeyValue payload = .ok (pyStrip payload, "")) ∧
    (∀ payload : String, '=' ∉ payload.data → pyStrip payload = "" →
      parseKeyValue payload =
        .error (.configurationError "Encountered git configuration entry with empty key.")) := by
  have hall_of_not_mem : ∀ (l : List Char), '=' ∉ l →
      ∀ a ∈ l, (fun c => !(c == '=')) a = true := by
    intro l hl a ha
    simp only [Bool.not_eq_true']
    rw [beq_eq_false_iff_ne]
    intro he
    exact hl (he ▸ ha)
  have hc : (fun c => !(c == '=')) '=' = false := by decide
  have hred_eq : ∀ (payload : String) (kpart vpart : List Char),
      payload.data = kpart ++ '=' :: vpart → '=' ∉ kpart →
      parseKeyValue payload =
        (if pyStrip (String.mk kpart) = "" then
          .error (.configurationError "Encountered git configuration entry with empty key.")
         else .ok (pyStrip (String.mk kpart), String.mk (pyRstripNlL vpart))) := by
    intro payload kpart vpart hsplit hk
    have htake := takeWhile_append_of_all (fun c => !(c == '=')) kpart '=' vpart
      (hall_of_not_mem kpart hk) hc
    have hdrop := dropWhile_append_of_all (fun c => !(c == '=')) kpart '=' vpart
      (hall_of_not_mem kpart hk) hc
    unfold parseKeyValue
    rw [hsplit, htake, hdrop]
  have hred_noeq : ∀ (payload : String), '=' ∉ payload.data →
      parseKeyValue payload =
        (if pyStrip payload = "" then
          .error (.configurationError "Encountered git configuration entry with empty key.")
         else .ok (pyStrip payload, "")) := by
    intro payload hp
    have hdrop := dropWhile_eq_nil_of_all (fun c => !(c == '=')) payload.data
      (hall_of_not_mem payload.data hp)
    unfold parseKeyValue
    rw [hdrop]
    rfl
  refine ⟨?_, ?_, ?_, ?_⟩
  · intro payload kpart vpart hsplit hk hv hne
    rw [hred_eq payload kpart vpart hsplit hk, if_neg hne]
    have hv2 : ∀ c ∈ vpart, (c == '\n') = false := by
      intro c hmem
      rw [beq_eq_false_iff_ne]
      intro he
      exact hv (he ▸ hmem)
    rw [pyRstripNl_of_no_newline vpart hv2]
  · intro payload kpart vpart hsplit hk hz
    rw [hred_eq payload kpart vpart hsplit hk, if_pos hz]
  · intro payload hp hne
    rw [hred_noeq payload hp, if_neg hne]
  · intro payload hp hz
    rw [hred_noeq payload hp, if_pos hz]

/-- C8 witness: the branches applied at concrete payloads. -/
theorem c8_key_value_split_witness :
    parseKeyValue "a=b=c" = .ok ("a", "b=c") ∧
    parseKeyValue "noequals" = .ok ("noequals", "") ∧
    parseKeyValue "=v" =
      .error (.configurationError "Encountered git configuration entry with empty key.") := by
  refine ⟨?_, ?_, ?_⟩
  · exact c8_key_value_split.1 "a=b=c" "a".data "b=c".data rfl (by decide) (by decide) (by decide)
  · exact c8_key_value_split.2.2.1 "noequals" (by decide) (by decide)
  · exact c8_key_value_split.2.1 "=v" [] "v".data rfl (by decide) rfl

/-- A valid entry and effective-config value used to probe the snapshot
validator for C10. -/
def c10entry : ConfigEntry :=
  { key := "user.name", value := "v", scope := .GLOBAL, origin := "/g",
    category_id := "user-identity", is_active := true, overridden_by := [], annotations := [] }

def c10eff : EffectiveConfig :=
  { key := "user.name", active_entry := c10entry, all_entries := [c10entry] }

/-- C10: snapshot construction succeeds exactly when the entries carry no
duplicate (key, scope) pair and every entry key appears in effective_map —
the validator does not require effective_map keys to appear among the
entries, so a snapshot whose effective_map has extra keys is accepted (the
key-set invariant is enforced in only one direction at construction time). -/
theorem c10_snapshot_validation :
    (∀ (scopes : List (ConfigScope × ScopeMetadata)) (entries : List ConfigEntry)
       (em : List (String × EffectiveConfig)),
      isOkE (mkConfigSnapshot scopes entries em) = true ↔
        ((entries.map (fun e => (e.key, e.scope))).Nodup ∧
          ∀ e ∈ entries, (alookup em e.key).isSome = true)) ∧
    mkEffectiveConfig "user.name" c10entry [c10entry] = .ok c10eff ∧
    mkConfigSnapshot [] [] [("user.name", c10eff)] =
      .ok ⟨[], [], [("user.name", c10eff)]⟩ := by
  refine ⟨?_, rfl, rfl⟩
  intro scopes entries em
  cases hf : findDuplicatePair entries [] with
  | some ks =>
    have hiff := findDuplicatePair_none_iff entries []
    rw [hf] at hiff
    simp only [mkConfigSnapshot, hf, isOkE]
    simp at hiff
    constructor
    · intro h
      cases h
    · rintro ⟨hnd, _⟩
      exact absurd hnd hiff
  | none =>
    have hiff := (findDuplicatePair_none_iff entries []).1 hf
    simp only [mkConfigSnapshot, hf]
    by_cases hm : ((entries.map (·.key)).filter (fun k => (alookup em k).isNone)).isEmpty = true
    · simp only [hm, Bool.not_true, Bool.false_eq_true, if_false, isOkE]
      have hall : ∀ e ∈ entries, (alookup em e.key).isSome = true := by
        intro e he
        have hfil := List.isEmpty_iff.1 hm
        rw [List.filter_eq_nil_iff] at hfil
        have h2 := hfil e.key (List.mem_map_of_mem (·.key) he)
        cases halo : alookup em e.key with
        | none => rw [halo] at h2; simp at h2
        | some v => rfl
      constructor
      · intro _
        exact ⟨hiff.1, hall⟩
      · intro _
        trivial
    · rw [Bool.not_eq_true] at hm
      simp only [hm, Bool.not_false, if_true, isOkE]
      constructor
      · intro h
        cases h
      · rintro ⟨_, hall⟩
        exfalso
        have hne : ((entries.map (·.key)).filter (fun k => (alookup em k).isNone)) ≠ [] := by
          intro hnil
          rw [hnil] at hm
          cases hm
        obtain ⟨x, hx⟩ := List.exists_mem_of_ne_nil _ hne
        have hx2 := List.mem_filter.1 hx
        obtain ⟨e, he, hek⟩ := List.mem_map.1 hx2.1
        have h3 := hall e he
        rw [hek] at h3
        have h4 := hx2.2
        rw [Option.isNone_iff_eq_none] at h4
        rw [h4] at h3
        cases h3

/-- C10 witness: the characterization applied to the concrete snapshot whose
effective_map holds a key with no corresponding entry — construction
succeeds. -/
theorem c10_snapshot_validation_witness :
    isOkE (mkConfigSnapshot [] [] [("user.name", c10eff)]) = true :=
  (c10_snapshot_validation.1 [] [] [("user.name", c10eff)]).2 (by decide)

/-- Concrete two-scope input for the override-chain claim. -/
def c3input : String :=
  "system file:/tmp/s user.name=Sys\nglobal file:/tmp/g user.name=Glob"

def c3entryA : ConfigEntry :=
  { key := "user.name", value := "Sys", scope := .SYSTEM, origin := "/tmp/s",
    category_id := "user-identity", is_active := false, overridden_by := [], annotations := [] }

def c3entryB : ConfigEntry :=
  { key := "user.name", value := "Glob", scope := .GLOBAL, origin := "/tmp/g",
    category_id := "user-identity", is_active := false, overridden_by := [], annotations := [] }

/-- C3: within a key's group (provisional entries, is_active false), after the
ascending sort by scope precedence, the entry at index i receives
overridden_by equal to the scopes of all entries after index i listed in
descending precedence order, and is_active = true exactly for the
highest-precedence (last) entry; in particular the {system, global} instance
parses end-to-end with system overridden by [global], inactive, and global
unoverridden, active. -/
theorem c3_override_chains :
    (∀ (group : List ConfigEntry), (∀ e ∈ group, e.is_active = false) →
      ∀ (i : Nat) (x : ConfigEntry),
        (normalizeGroup (pyStableSort entryPrecLt group))[i]? = some x →
        (x.overridden_by =
            (((pyStableSort entryPrecLt group).drop (i + 1)).map (·.scope)).reverse ∧
          List.Pairwise (fun a b : ConfigScope => b.precedence ≤ a.precedence) x.overridden_by ∧
          (x.is_active = true ↔ i = group.length - 1))) ∧
    (parseGitConfigOutput sampleEnv c3input).toOption.map
        (fun s => s.entries.map (fun e => (e.scope, e.overridden_by, e.is_active))) =
      some [(.SYSTEM, [.GLOBAL], false), (.GLOBAL, [], true)] := by
  constructor
  · intro group hall i x hx
    have h1 := normalizeGroup_getq_overridden (pyStableSort entryPrecLt group) i x hx
    have hall2 : ∀ e ∈ pyStableSort entryPrecLt group, e.is_active = false :=
      fun e he => hall e ((mem_pyStableSort _ _ _).1 he)
    have h2 := normalizeGroup_getq_is_active (pyStableSort entryPrecLt group) hall2 i x hx
    refine ⟨h1, ?_, ?_⟩
    · rw [h1]
      have hsorted : (pyStableSort entryPrecLt group).Pairwise
          (fun a b : ConfigEntry => a.scope.precedence ≤ b.scope.precedence) :=
        pyStableSort_natkey_sorted (fun e : ConfigEntry => e.scope.precedence) group
      have hdrop := List.Pairwise.sublist
        (List.drop_sublist (i + 1) (pyStableSort entryPrecLt group)) hsorted
      rw [List.pairwise_reverse, List.pairwise_map]
      exact hdrop
    · rw [h2]
      have hlen : (pyStableSort entryPrecLt group).length = group.length :=
        (pyStableSort_perm _ _).length_eq
      rw [hlen]
  · rfl

/-- C3 witness: the per-key pass applied to a concrete {system, global} group:
the system entry (index 0) is overridden by [global] and inactive. -/
theorem c3_override_chains_witness :
    ∃ x, (normalizeGroup (pyStableSort entryPrecLt [c3entryA, c3entryB]))[0]? = some x ∧
      x.overridden_by = [ConfigScope.GLOBAL] ∧ x.is_active = false := by
  cases hx : (normalizeGroup (pyStableSort entryPrecLt [c3entryA, c3entryB]))[0]? with
  | none => exact absurd hx (by decide)
  | some x =>
    have h2 := c3_override_chains.1 [c3entryA, c3entryB] (by decide) 0 x hx
    refine ⟨x, rfl, ?_, ?_⟩
    · rw [h2.1]
      rfl
    · cases hb : x.is_active
      · rfl
      · exact absurd (h2.2.2.1 hb) (by decide)

/-- C6: for every input the parser accepts, the key-set of the snapshot's
entries equals the key-set of its effective map: a key is carried by some
entry exactly when the effective map binds it. -/
theorem c6_keyset_equality (env : Env) (output : String) (snap : ConfigSnapshot)
    (h : parseGitConfigOutput env output = .ok snap) :
    ∀ k, ((∃ e ∈ snap.entries, e.key = k) ↔ (alookup snap.effective_map k).isSome = true) := by
  intro k
  cases hrec : parseRecords env output with
  | error er =>
    unfold parseGitConfigOutput at h
    rw [hrec] at h
    cases h
  | ok records =>
    cases records with
    | nil =>
      have hs := parse_ok_empty env output snap hrec h
      rw [hs]
      simp [alookup]
    | cons r rs =>
      obtain ⟨es, md, em, hbe, hem, hs⟩ :=
        parse_ok_chain env output snap (r :: rs) hrec (by simp) h
      rw [hs]
      exact (buildEffectiveMap_ok_keys es em hem k).symm

def c6out : String := "global file:/tmp/g user.name=A"

def c6snap : ConfigSnapshot :=
  (parseGitConfigOutput sampleEnv c6out).toOption.getD ⟨[], [], []⟩

/-- C6 witness: the key-set equality instantiated on a concrete parse. -/
theorem c6_keyset_equality_witness :
    (∃ e ∈ c6snap.entries, e.key = "user.name") ↔
      (alookup c6snap.effective_map "user.name").isSome = true :=
  c6_keyset_equality sampleEnv c6out c6snap rfl "user.name"

/-- C5: when N > 1 parsed records share a (key, scope) pair, the accepted
snapshot holds exactly one entry for that pair; its value is the value of the
last such record in input order, and its annotations are exactly the
duplicate-collapse message naming N. -/
theorem c5_duplicate_collapse (env : Env) (output : String)
    (records : List RawConfigRecord) (snap : ConfigSnapshot) (k : String) (s : ConfigScope)
    (hrec : parseRecords env output = .ok records)
    (hparse : parseGitConfigOutput env output = .ok snap)
    (hdup : 2 ≤ records.countP (fun r => decide ((r.key, r.scope) = (k, s)))) :
    snap.entries.countP (fun e => decide ((e.key, e.scope) = (k, s))) = 1 ∧
    ∀ e ∈ snap.entries, (e.key, e.scope) = (k, s) →
      (some e.value = (lastMatch (k, s) records).map RawConfigRecord.value ∧
        e.annotations = [duplicateMsg
          (records.countP (fun r => decide ((r.key, r.scope) = (k, s)))) s]) := by
  have hne : records ≠ [] := by
    intro hnil
    rw [hnil] at hdup
    simp at hdup
  obtain ⟨es, md, em, hbe, hem, hs⟩ := parse_ok_chain env output snap records hrec hne hparse
  have hperm := buildEntries_projE_perm env records es md hbe
  have hconsist : ∀ it ∈ (phase1 records).key_scope_map, (it.2.key, it.2.scope) = it.1 :=
    phase1_foldl_consistent records ⟨[], [], []⟩ (by intro it hit; simp at hit)
  have hnodup : ((phase1 records).key_scope_map.map Prod.fst).Nodup :=
    phase1_foldl_nodup records ⟨[], [], []⟩ (by simp)
  have hsome : (lastMatch (k, s) records).isSome = true :=
    lastMatch_isSome_of_countP_pos (k, s) records (by omega)
  obtain ⟨rlast, hrlast⟩ := Option.isSome_iff_exists.1 hsome
  have hlook2 : alookup (phase1 records).key_scope_map (k, s) = some rlast := by
    have h0 := phase1_foldl_ksmap records ⟨[], [], []⟩ (k, s)
    rw [hrlast] at h0
    exact h0
  have hcount_st : (alookup (phase1 records).duplicate_counts (k, s)).getD 0 =
      records.countP (fun r => decide ((r.key, r.scope) = (k, s))) := by
    have h0 := phase1_foldl_counts records ⟨[], [], []⟩ (k, s)
    simpa [alookup] using h0
  have hse : snap.entries = es := by rw [hs]
  have hcount : es.countP (fun e => decide ((e.key, e.scope) = (k, s))) = 1 := by
    have hc1 : es.countP (fun e => decide ((e.key, e.scope) = (k, s))) =
        (es.map projE).countP (fun t => decide ((t.1, t.2.1) = (k, s))) := by
      rw [List.countP_map]
      rfl
    rw [hc1, List.Perm.countP_eq _ hperm, List.countP_map]
    have hcongr : ∀ it ∈ (phase1 records).key_scope_map,
        (((fun t : String × ConfigScope × String × List String =>
            decide ((t.1, t.2.1) = (k, s))) ∘
          (fun it => projE (entryOf env (phase1 records).duplicate_counts it))) it = true ↔
          (fun it : (String × ConfigScope) × RawConfigRecord =>
            decide (it.1 = (k, s))) it = true) := by
      intro it hit
      simp only [Function.comp, projE, entryOf, decide_eq_true_iff]
      rw [hconsist it hit]
    rw [List.countP_congr hcongr]
    exact countP_keyfst_eq_one (phase1 records).key_scope_map (k, s) hnodup
      (by rw [hlook2]; rfl)
  constructor
  · rw [hse]
    exact hcount
  · intro e he hke
    rw [hse] at he
    have hm1 : projE e ∈ es.map projE := List.mem_map_of_mem projE he
    have hm2 := hperm.mem_iff.1 hm1
    obtain ⟨it, hit, hpe⟩ := List.mem_map.1 hm2
    have hkey : it.2.key = e.key := by
      have h0 := congrArg (fun t : String × ConfigScope × String × List String => t.1) hpe
      simpa [projE, entryOf] using h0
    have hscope : it.2.scope = e.scope := by
      have h0 := congrArg (fun t : String × ConfigScope × String × List String => t.2.1) hpe
      simpa [projE, entryOf] using h0
    have hvalue : it.2.value = e.value := by
      have h0 := congrArg (fun t : String × ConfigScope × String × List String => t.2.2.1) hpe
      simpa [projE, entryOf] using h0
    have hann : entryAnnotations (phase1 records).duplicate_counts it.1 = e.annotations := by
      have h0 := congrArg (fun t : String × ConfigScope × String × List String => t.2.2.2) hpe
      simpa [projE, entryOf] using h0
    have hit1 : it.1 = (k, s) := by
      rw [← hconsist it hit, hkey, hscope]
      exact hke
    have hrl : it.2 = rlast := by
      have h5 := alookup_eq_some_of_mem_nodup (phase1 records).key_scope_map hnodup it hit
      rw [hit1, hlook2] at h5
      exact (Option.some.inj h5).symm
    constructor
    · rw [hrlast, Option.map_some', ← hvalue, hrl]
    · rw [← hann, hit1]
      simp only [entryAnnotations]
      rw [hcount_st, if_pos (by omega)]

def c5out : String :=
  "global file:/tmp/g user.name=A\nglobal file:/tmp/g user.name=B"

def c5records : List RawConfigRecord :=
  (parseRecords sampleEnv c5out).toOption.getD []

def c5snap : ConfigSnapshot :=
  (parseGitConfigOutput sampleEnv c5out).toOption.getD ⟨[], [], []⟩

/-- C5 witness: two records for (user.name, global) collapse to a single
entry carrying the last value and the two-values annotation. -/
theorem c5_duplicate_collapse_witness :
    c5snap.entries.countP
        (fun e => decide ((e.key, e.scope) = ("user.name", ConfigScope.GLOBAL))) = 1 ∧
    ∀ e ∈ c5snap.entries, (e.key, e.scope) = ("user.name", ConfigScope.GLOBAL) →
      (some e.value =
          (lastMatch ("user.name", ConfigScope.GLOBAL) c5records).map RawConfigRecord.value ∧
        e.annotations = [duplicateMsg
          (c5records.countP
            (fun r => decide ((r.key, r.scope) = ("user.name", ConfigScope.GLOBAL))))
          ConfigScope.GLOBAL]) :=
  c5_duplicate_collapse sampleEnv c5out c5records c5snap "user.name" ConfigScope.GLOBAL
    rfl rfl (by decide)

end Gitcfg
